import Mathlib

/-!
Verification of the conversion engine of `core/converter.py` (Macan Media
Player).  The Python code is shallowly embedded: pure helpers become Lean
functions, the ffmpeg stderr-reading loop becomes a function from an input
stream (plus a cancellation schedule and exit code) to the list of callback
events it emits, and the batch runner becomes a function from a task list to
its event trace.  Paths use POSIX semantics (`os.path` with `sep = '/'`).
-/

set_option maxRecDepth 10000

/-! ### String helpers mirroring the Python built-ins used by the engine -/

/-- Boolean test that `n` is an initial segment of the second list. -/
def startsW : List Char → List Char → Bool
  | [], _ => true
  | _ :: _, [] => false
  | a :: as, b :: bs => a == b && startsW as bs

/-- Boolean test that `n` occurs contiguously inside the second list. -/
def hasSubL (n : List Char) : List Char → Bool
  | [] => n.isEmpty
  | c :: rest => startsW n (c :: rest) || hasSubL n rest

/-- Python `needle in haystack` for strings. -/
def strContains (hay needle : String) : Bool :=
  hasSubL needle.data hay.data

/-- Python `s.isdigit()` for the ASCII strings the engine handles. -/
def isDigitStr (s : String) : Bool :=
  !s.data.isEmpty && s.data.all Char.isDigit

/-- Python `any(c.isdigit() for c in s)`. -/
def hasDigit (s : String) : Bool :=
  s.data.any Char.isDigit

/-- Helper for `splitWs`: accumulate the current word (reversed) while
splitting on whitespace runs. -/
def splitWsGo : List Char → List Char → List String
  | [], acc => if acc.isEmpty then [] else [⟨acc.reverse⟩]
  | c :: rest, acc =>
    if c.isWhitespace then
      if acc.isEmpty then splitWsGo rest [] else ⟨acc.reverse⟩ :: splitWsGo rest []
    else splitWsGo rest (c :: acc)

/-- Python `s.split()` (split on whitespace runs, dropping empty pieces). -/
def splitWs (s : String) : List String :=
  splitWsGo s.data []

/-! ### POSIX path helpers (`os.path.basename`, `os.path.splitext`,
`os.path.join`) as used by the task constructors -/

/-- Characters after the last `'/'`: `os.path.basename` on char lists. -/
def basenameL (l : List Char) : List Char :=
  (l.reverse.takeWhile (fun c => c != '/')).reverse

/-- Root part of `os.path.splitext` on a list already free of `'/'`:
drop the suffix starting at the last dot, unless every character before
that dot is itself a dot (the leading-dot rule of `posixpath.splitext`). -/
def splitextRootL (b : List Char) : List Char :=
  match b.reverse.findIdx? (fun c => c == '.') with
  | none => b
  | some k =>
    let root := (b.reverse.drop (k + 1)).reverse
    if root.any (fun c => c != '.') then root else b

/-- Python `os.path.splitext(os.path.basename(p))[0]`. -/
def stem (p : String) : String :=
  ⟨splitextRootL (basenameL p.data)⟩

/-- Python `os.path.basename(p)` on strings. -/
def basename (p : String) : String :=
  ⟨basenameL p.data⟩

/-- Two-argument `os.path.join` with POSIX separator. -/
def pathJoin (a b : String) : String :=
  if b.data.head? = some '/' then b
  else if a = "" ∨ a.data.getLast? = some '/' then a ++ b
  else a ++ "/" ++ b

/-- Output path shared by the task constructors:
`os.path.join(output_dir, f'{base}.{out_format}')` with
`base = os.path.splitext(os.path.basename(input_path))[0]`. -/
def outputPathOf (output_dir input_path out_format : String) : String :=
  pathJoin output_dir (stem input_path ++ "." ++ out_format)

/-- Output path computed in `AudioConverter.__init__`. -/
def AudioConverter.outputPath (input_path output_dir out_format : String) : String :=
  outputPathOf output_dir input_path out_format

/-- Output path computed in `VideoConverter.__init__` (same derivation). -/
def VideoConverter.outputPath (input_path output_dir out_format : String) : String :=
  outputPathOf output_dir input_path out_format

/-! ### Path-derivation lemmas -/

lemma strData_append (a b : String) : (a ++ b).data = a.data ++ b.data := by
  cases a; cases b; rfl

lemma slash_not_mem_basenameL (l : List Char) : '/' ∉ basenameL l := by
  intro h
  rw [basenameL, List.mem_reverse] at h
  have := List.mem_takeWhile_imp h
  simp at this

lemma mem_splitextRootL {a : Char} {b : List Char} (h : a ∈ splitextRootL b) : a ∈ b := by
  rw [splitextRootL] at h
  rcases hf : b.reverse.findIdx? (fun c => c == '.') with _ | k <;> rw [hf] at h
  · exact h
  · simp only at h
    split at h
    · rw [List.mem_reverse] at h
      exact List.mem_reverse.mp (List.mem_of_mem_drop h)
    · exact h

lemma slash_not_mem_stem (p : String) : '/' ∉ (stem p).data := by
  intro h
  exact slash_not_mem_basenameL p.data (mem_splitextRootL h)

lemma stem_cat_head (input fmt : String) :
    (stem input ++ "." ++ fmt).data.head? ≠ some '/' := by
  intro h
  rw [strData_append, strData_append] at h
  have hdot : (".").data = ['.'] := rfl
  rw [hdot] at h
  rcases hs : (stem input).data with _ | ⟨c, rest⟩ <;> rw [hs] at h
  · simp only [List.nil_append, List.cons_append, List.head?_cons,
      Option.some.injEq] at h
    exact absurd h (by decide)
  · simp only [List.cons_append, List.head?_cons, Option.some.injEq] at h
    exact slash_not_mem_stem input (by rw [hs, h]; exact List.mem_cons_self _ _)

/-- Claim C9 (amended): when the output directory is nonempty and does not
already end with a separator, the output path computed by both task
constructors equals `output_dir ++ "/" ++ stem input ++ "." ++ fmt`,
independent of the input's original extension. -/
theorem C9_output_path (input output_dir fmt : String)
    (hne : output_dir ≠ "") (hslash : output_dir.data.getLast? ≠ some '/') :
    AudioConverter.outputPath input output_dir fmt
        = output_dir ++ "/" ++ stem input ++ "." ++ fmt
      ∧ VideoConverter.outputPath input output_dir fmt
        = output_dir ++ "/" ++ stem input ++ "." ++ fmt := by
  have hj : outputPathOf output_dir input fmt
      = output_dir ++ "/" ++ stem input ++ "." ++ fmt := by
    rw [outputPathOf, pathJoin]
    rw [if_neg (stem_cat_head input fmt), if_neg (by push_neg; exact ⟨hne, hslash⟩)]
    apply String.ext
    simp only [strData_append, List.append_assoc]
  exact ⟨hj, hj⟩

/-- Witness for C9 at a concrete input (the spec's own example). -/
theorem C9_output_path_witness :
    AudioConverter.outputPath "clip.mov" "/out" "mp4" = "/out/clip.mp4"
      ∧ VideoConverter.outputPath "clip.mov" "/out" "mp4" = "/out/clip.mp4" := by
  have h := C9_output_path "clip.mov" "/out" "mp4" (by decide) (by decide)
  exact ⟨h.1.trans (by decide), h.2.trans (by decide)⟩

/-- Claim C9 counterexample: with a trailing separator on the output
directory the code does not duplicate the separator, so the claimed formula
`output_dir ++ "/" ++ stem input ++ "." ++ fmt` is wrong as stated. -/
theorem C9_counterexample :
    AudioConverter.outputPath "clip.mov" "/out/" "mp4"
      ≠ "/out/" ++ "/" ++ stem "clip.mov" ++ "." ++ "mp4" := by
  decide

/-! ### Video converter options and argument synthesis -/

/-- Fields of `VideoConverter` as stored by `__init__` (after the
lower-casing, `strip()` and display-name splitting it performs). -/
structure VideoOpts where
  input_path : String
  output_dir : String
  out_format : String
  resolution : String
  quality : String
  use_gpu : Bool
  advanced : Bool
  v_bitrate : String
  fps : String
  v_encoder : String
  a_encoder : String
  a_bitrate : String
  a_channels : String
  a_samplerate : String
  custom_flags : String
  ref_frames : Int
  use_cabac : Bool

/-- Python `dict.get(k, dflt)` on an association list. -/
def dictGet (d : List (String × String)) (k dflt : String) : String :=
  (List.lookup k d).getD dflt

/-- Module constant `VIDEO_QUALITY_CRF`. -/
def VIDEO_QUALITY_CRF : List (String × String) :=
  [("high", "18"), ("medium", "23"), ("low", "28")]

/-- Module constant `VIDEO_QUALITY_GPU`. -/
def VIDEO_QUALITY_GPU : List (String × String) :=
  [("high", "6000k"), ("medium", "4000k"), ("low", "2000k")]

/-- Class constant `VideoConverter.RESOLUTION_MAP`. -/
def RESOLUTION_MAP : List (String × String) :=
  [("360p", "360"), ("480p", "480"), ("720p", "720"),
   ("1080p", "1080"), ("2k", "1440"), ("4k", "2160")]

/-- `VideoConverter._resolve_video_encoder`. -/
def VideoConverter.resolveVideoEncoder (o : VideoOpts) : String :=
  let enc :=
    if o.advanced then o.v_encoder
    else if o.out_format = "mp4" ∨ o.out_format = "mov" ∨ o.out_format = "mkv" then "libx264"
    else o.v_encoder
  if o.use_gpu ∧ o.out_format ≠ "gif" ∧ enc ≠ "copy" then
    if enc = "libx264" ∨ enc = "h264" then "h264_nvenc"
    else if enc = "libx265" ∨ enc = "hevc" ∨ enc = "h265" then "hevc_nvenc"
    else enc
  else enc

/-- `VideoConverter._build_video_quality_args`. -/
def VideoConverter.buildVideoQualityArgs (o : VideoOpts) (encoder : String) : List String :=
  let is_nvenc := strContains encoder "nvenc"
  if o.advanced then
    (if o.v_bitrate ≠ "" ∧ o.v_bitrate ≠ "auto" then
      let bv := if isDigitStr o.v_bitrate then o.v_bitrate ++ "k" else o.v_bitrate
      if hasDigit bv then
        ["-b:v", bv] ++ (if is_nvenc then ["-maxrate", bv] else [])
      else []
    else
      if is_nvenc then ["-b:v", "5000k"]
      else if strContains encoder "libx264" then ["-crf", "23"]
      else [])
    ++
    (if strContains encoder "libx264" then
      ["-x264-params", String.intercalate ":"
        ((if o.ref_frames > 0 then ["ref=" ++ toString o.ref_frames] else [])
          ++ ["cabac=" ++ (if o.use_cabac then "1" else "0")])]
    else if is_nvenc then
      (if o.ref_frames > 0 then ["-refs", toString o.ref_frames] else [])
    else [])
  else
    if is_nvenc then ["-b:v", dictGet VIDEO_QUALITY_GPU o.quality "4000k"]
    else ["-crf", dictGet VIDEO_QUALITY_CRF o.quality "23", "-preset", "medium"]

/-- `VideoConverter._build_args`. -/
def VideoConverter.buildArgs (o : VideoOpts) : List String :=
  (if o.use_gpu then ["-hwaccel", "cuda", "-hwaccel_output_format", "cuda"] else [])
  ++ ["-i", o.input_path]
  ++ (match List.lookup o.resolution RESOLUTION_MAP with
      | some h => if o.use_gpu then ["-vf", "scale_cuda=-2:" ++ h] else ["-vf", "scale=-2:" ++ h]
      | none => [])
  ++ (let fe := VideoConverter.resolveVideoEncoder o
      if fe = "copy" then ["-c:v", "copy"]
      else ["-c:v", fe] ++ VideoConverter.buildVideoQualityArgs o fe)
  ++ (if o.advanced ∧ o.fps ≠ "original" then ["-r", o.fps] else [])
  ++ (if o.advanced ∧ o.custom_flags ≠ "" then splitWs o.custom_flags else [])
  ++ (if o.out_format = "gif" then []
      else if o.advanced then
        (if o.a_encoder = "copy" then ["-c:a", "copy"]
         else ["-c:a", o.a_encoder]
           ++ (if o.a_channels ≠ "original" ∧ o.a_channels ≠ "" then ["-ac", o.a_channels] else [])
           ++ (if o.a_samplerate ≠ "original" ∧ o.a_samplerate ≠ "" then ["-ar", o.a_samplerate] else [])
           ++ (if o.a_bitrate ≠ "original" ∧ o.a_bitrate ≠ "" then ["-b:a", o.a_bitrate] else []))
      else ["-c:a", "aac", "-b:a", "192k"])
  ++ ["-y", VideoConverter.outputPath o.input_path o.output_dir o.out_format]

/-! ### Claim-side definitions for C5, C6, C7, C10 (written from the
spec's wording, to be compared with the functions above) -/

/-- Spec wording (C5): "one fixed mapping table of two entries" sending the
H.264 software family to `h264_nvenc` and the H.265 family to `hevc_nvenc`;
"unrecognized encoder names are left untouched". -/
def nvencSubst (e : String) : String :=
  (List.lookup e
    [("libx264", "h264_nvenc"), ("h264", "h264_nvenc"),
     ("libx265", "hevc_nvenc"), ("hevc", "hevc_nvenc"), ("h265", "hevc_nvenc")]).getD e

/-- Spec wording (C5): simple mode forces the default software encoder for
the common container formats, advanced mode keeps the caller's encoder, then
the hardware substitution is applied when GPU is on, the target is not the
image-sequence format and the encoder is not pass-through. -/
def claimResolveEncoder (o : VideoOpts) : String :=
  let base :=
    if o.advanced then o.v_encoder
    else if o.out_format ∈ ["mp4", "mov", "mkv"] then "libx264"
    else o.v_encoder
  if o.use_gpu ∧ o.out_format ≠ "gif" ∧ base ≠ "copy" then nvencSubst base else base

/-- Spec wording (C6): "a bare integer is normalized to a `k` suffix". -/
def claimNormBitrate (bv : String) : String :=
  if isDigitStr bv then bv ++ "k" else bv

/-- Spec wording (C6): the bitrate/quality portion of the advanced-mode
quality arguments. -/
def claimAdvQualityHead (o : VideoOpts) (enc : String) : List String :=
  if o.v_bitrate ≠ "" ∧ o.v_bitrate ≠ "auto" then
    if hasDigit (claimNormBitrate o.v_bitrate) then
      ["-b:v", claimNormBitrate o.v_bitrate]
        ++ (if strContains enc "nvenc" then ["-maxrate", claimNormBitrate o.v_bitrate] else [])
    else []
  else if strContains enc "nvenc" then ["-b:v", "5000k"]
  else if strContains enc "libx264" then ["-crf", "23"]
  else []

/-- Encoder-tuning portion of the advanced-mode quality arguments
(reference frames and the CABAC toggle): contains no bitrate or
constant-quality flag. -/
def advTuningArgs (o : VideoOpts) (enc : String) : List String :=
  if strContains enc "libx264" then
    ["-x264-params", String.intercalate ":"
      ((if o.ref_frames > 0 then ["ref=" ++ toString o.ref_frames] else [])
        ++ ["cabac=" ++ (if o.use_cabac then "1" else "0")])]
  else if strContains enc "nvenc" then
    (if o.ref_frames > 0 then ["-refs", toString o.ref_frames] else [])
  else []

/-- Spec wording (C7/C10): the three-tier software constant-quality table,
with the medium value as fallback. -/
def claimCrfTier (q : String) : String :=
  if q = "high" then "18" else if q = "low" then "28" else "23"

/-- Spec wording (C7/C10): the three-tier hardware bitrate table, with the
medium value as fallback. -/
def claimGpuTier (q : String) : String :=
  if q = "high" then "6000k" else if q = "low" then "2000k" else "4000k"

lemma nvencSubst_eq (e : String) :
    nvencSubst e
      = if e = "libx264" ∨ e = "h264" then "h264_nvenc"
        else if e = "libx265" ∨ e = "hevc" ∨ e = "h265" then "hevc_nvenc"
        else e := by
  by_cases h1 : e = "libx264"
  · subst h1; decide
  by_cases h2 : e = "h264"
  · subst h2; decide
  by_cases h3 : e = "libx265"
  · subst h3; decide
  by_cases h4 : e = "hevc"
  · subst h4; decide
  by_cases h5 : e = "h265"
  · subst h5; decide
  have b1 : (e == "libx264") = false := beq_eq_false_iff_ne.mpr h1
  have b2 : (e == "h264") = false := beq_eq_false_iff_ne.mpr h2
  have b3 : (e == "libx265") = false := beq_eq_false_iff_ne.mpr h3
  have b4 : (e == "hevc") = false := beq_eq_false_iff_ne.mpr h4
  have b5 : (e == "h265") = false := beq_eq_false_iff_ne.mpr h5
  simp [nvencSubst, List.lookup, b1, b2, b3, b4, b5, h1, h2, h3, h4, h5]

/-- Claim C5: the resolved video encoder matches the spec's resolution rule
(simple-mode default, advanced as-is, opportunistic two-entry hardware
substitution), and with GPU on the acceleration flags precede the input
flag. -/
theorem C5_encoder_resolution (o : VideoOpts) :
    VideoConverter.resolveVideoEncoder o = claimResolveEncoder o
      ∧ (o.use_gpu = true → ∃ rest,
          VideoConverter.buildArgs o
            = ["-hwaccel", "cuda", "-hwaccel_output_format", "cuda",
               "-i", o.input_path] ++ rest) := by
  constructor
  · rw [VideoConverter.resolveVideoEncoder, claimResolveEncoder, nvencSubst_eq]
    simp only [List.mem_cons, List.mem_singleton, List.not_mem_nil, or_false]
  · intro hgpu
    simp only [VideoConverter.buildArgs, hgpu, if_true, List.cons_append,
      List.nil_append]
    exact ⟨_, rfl⟩

/-- Witness for C5 at a concrete input: advanced mode, GPU on, H.264
software encoder requested. -/
theorem C5_encoder_resolution_witness :
    VideoConverter.resolveVideoEncoder
        ⟨"clip.mov", "/out", "mp4", "original", "medium", true, true, "auto",
         "original", "libx264", "aac", "original", "original", "original", "", 0, true⟩
      = claimResolveEncoder
        ⟨"clip.mov", "/out", "mp4", "original", "medium", true, true, "auto",
         "original", "libx264", "aac", "original", "original", "original", "", 0, true⟩
      ∧ ((true : Bool) = true → ∃ rest,
          VideoConverter.buildArgs
            ⟨"clip.mov", "/out", "mp4", "original", "medium", true, true, "auto",
             "original", "libx264", "aac", "original", "original", "original", "", 0, true⟩
            = ["-hwaccel", "cuda", "-hwaccel_output_format", "cuda",
               "-i", "clip.mov"] ++ rest) :=
  C5_encoder_resolution _

/-- Claim C6: advanced-mode quality arguments are the spec's bitrate policy
(normalized explicit bitrate, with a max-rate cap for hardware encoders;
otherwise the fixed hardware default or the libx264 constant-quality value)
followed only by the encoder-tuning arguments. -/
theorem C6_advanced_bitrate (o : VideoOpts) (enc : String) (hadv : o.advanced = true) :
    VideoConverter.buildVideoQualityArgs o enc
      = claimAdvQualityHead o enc ++ advTuningArgs o enc := by
  rw [VideoConverter.buildVideoQualityArgs, claimAdvQualityHead, advTuningArgs,
    claimNormBitrate]
  simp only [hadv, if_true]

/-- Witness for C6 at a concrete input: bare-integer bitrate `"3000"` with a
hardware encoder. -/
theorem C6_advanced_bitrate_witness :
    (⟨"clip.mov", "/out", "mp4", "original", "medium", true, true, "3000",
        "original", "h264", "aac", "original", "original", "original", "", 0, true⟩
      : VideoOpts).advanced = true
    ∧ VideoConverter.buildVideoQualityArgs
        ⟨"clip.mov", "/out", "mp4", "original", "medium", true, true, "3000",
         "original", "h264", "aac", "original", "original", "original", "", 0, true⟩
        "h264_nvenc"
      = claimAdvQualityHead
          ⟨"clip.mov", "/out", "mp4", "original", "medium", true, true, "3000",
           "original", "h264", "aac", "original", "original", "original", "", 0, true⟩
          "h264_nvenc"
        ++ advTuningArgs
          ⟨"clip.mov", "/out", "mp4", "original", "medium", true, true, "3000",
           "original", "h264", "aac", "original", "original", "original", "", 0, true⟩
          "h264_nvenc" :=
  ⟨rfl, C6_advanced_bitrate _ "h264_nvenc" rfl⟩

/-- Claim C7 (amended): in simple mode with a known quality tier the quality
arguments come from the fixed three-tier table (hardware bitrate, or
software constant quality plus the medium preset), and in simple mode with a
target format other than the image-sequence format the default audio encoder
`aac` at `192k` is always applied. -/
theorem C7_simple_mode (o : VideoOpts) (hadv : o.advanced = false)
    (_henc : VideoConverter.resolveVideoEncoder o ≠ "copy") :
    (o.quality = "high" ∨ o.quality = "medium" ∨ o.quality = "low" →
      ∀ enc, VideoConverter.buildVideoQualityArgs o enc
        = if strContains enc "nvenc" then ["-b:v", claimGpuTier o.quality]
          else ["-crf", claimCrfTier o.quality, "-preset", "medium"])
    ∧ (o.out_format ≠ "gif" →
      ∃ front, VideoConverter.buildArgs o
        = front ++ ["-c:a", "aac", "-b:a", "192k",
            "-y", VideoConverter.outputPath o.input_path o.output_dir o.out_format]) := by
  constructor
  · intro hq enc
    rw [VideoConverter.buildVideoQualityArgs]
    rcases hq with h | h | h <;>
      simp [hadv, h, dictGet, VIDEO_QUALITY_GPU, VIDEO_QUALITY_CRF, List.lookup,
        claimGpuTier, claimCrfTier]
  · intro hgif
    simp only [VideoConverter.buildArgs, hadv, Bool.false_eq_true, if_false,
      false_and, if_neg hgif, List.cons_append, List.nil_append, List.append_assoc,
      List.append_nil]
    refine ⟨(if o.use_gpu = true then
          ["-hwaccel", "cuda", "-hwaccel_output_format", "cuda"] else [])
        ++ "-i" :: o.input_path ::
          ((match List.lookup o.resolution RESOLUTION_MAP with
            | some h =>
              if o.use_gpu = true then ["-vf", "scale_cuda=-2:" ++ h]
              else ["-vf", "scale=-2:" ++ h]
            | none => [])
          ++ (if VideoConverter.resolveVideoEncoder o = "copy" then ["-c:v", "copy"]
              else "-c:v" :: VideoConverter.resolveVideoEncoder o ::
                VideoConverter.buildVideoQualityArgs o
                  (VideoConverter.resolveVideoEncoder o))), ?_⟩
    simp only [List.cons_append, List.nil_append, List.append_assoc]

/-- Witness for C7 at the spec's own example: 720p, medium tier, GPU off,
advanced off, mp4 target. -/
theorem C7_simple_mode_witness :
    ((⟨"clip.mov", "/out", "mp4", "720p", "medium", false, false, "auto",
        "original", "libx264", "aac", "original", "original", "original", "", 0, true⟩
      : VideoOpts).advanced = false)
    ∧ VideoConverter.resolveVideoEncoder
        ⟨"clip.mov", "/out", "mp4", "720p", "medium", false, false, "auto",
         "original", "libx264", "aac", "original", "original", "original", "", 0, true⟩
        ≠ "copy"
    ∧ (("medium" : String) = "high" ∨ ("medium" : String) = "medium"
          ∨ ("medium" : String) = "low" →
        ∀ enc, VideoConverter.buildVideoQualityArgs
          ⟨"clip.mov", "/out", "mp4", "720p", "medium", false, false, "auto",
           "original", "libx264", "aac", "original", "original", "original", "", 0, true⟩
          enc
        = if strContains enc "nvenc" then ["-b:v", claimGpuTier "medium"]
          else ["-crf", claimCrfTier "medium", "-preset", "medium"])
    ∧ (("mp4" : String) ≠ "gif" →
        ∃ front, VideoConverter.buildArgs
          ⟨"clip.mov", "/out", "mp4", "720p", "medium", false, false, "auto",
           "original", "libx264", "aac", "original", "original", "original", "", 0, true⟩
        = front ++ ["-c:a", "aac", "-b:a", "192k", "-y",
            VideoConverter.outputPath "clip.mov" "/out" "mp4"]) := by
  refine ⟨rfl, by decide, ?_, ?_⟩
  · exact (C7_simple_mode
      (⟨"clip.mov", "/out", "mp4", "720p", "medium", false, false, "auto",
        "original", "libx264", "aac", "original", "original", "original", "", 0, true⟩
        : VideoOpts) rfl (by decide)).1
  · exact (C7_simple_mode
      (⟨"clip.mov", "/out", "mp4", "720p", "medium", false, false, "auto",
        "original", "libx264", "aac", "original", "original", "original", "", 0, true⟩
        : VideoOpts) rfl (by decide)).2

/-- Claim C7 counterexample: a simple-mode task targeting `gif` with a
non-copy resolved encoder gets no audio arguments at all, so the default
`aac`/`192k` pair is not "always applied" in simple mode as the claim
states. -/
theorem C7_counterexample :
    ((⟨"clip.mov", "/out", "gif", "original", "medium", false, false, "auto",
        "original", "libx264", "aac", "original", "original", "original", "", 0, true⟩
      : VideoOpts).advanced = false)
    ∧ VideoConverter.resolveVideoEncoder
        ⟨"clip.mov", "/out", "gif", "original", "medium", false, false, "auto",
         "original", "libx264", "aac", "original", "original", "original", "", 0, true⟩
        = "libx264"
    ∧ "-c:a" ∉ VideoConverter.buildArgs
        ⟨"clip.mov", "/out", "gif", "original", "medium", false, false, "auto",
         "original", "libx264", "aac", "original", "original", "original", "", 0, true⟩ := by
  refine ⟨rfl, by decide, ?_⟩
  decide

/-- Claim C10: in simple mode an unknown quality tier silently falls back to
the medium-tier defaults: bitrate `4000k` on the hardware path and constant
quality `23` (with the medium preset) on the software path. -/
theorem C10_unknown_tier (o : VideoOpts) (hadv : o.advanced = false)
    (hq : ¬(o.quality = "high" ∨ o.quality = "medium" ∨ o.quality = "low")) :
    ∀ enc, VideoConverter.buildVideoQualityArgs o enc
      = if strContains enc "nvenc" then ["-b:v", "4000k"]
        else ["-crf", "23", "-preset", "medium"] := by
  intro enc
  push_neg at hq
  obtain ⟨h1, h2, h3⟩ := hq
  have b1 : (o.quality == "high") = false := beq_eq_false_iff_ne.mpr h1
  have b2 : (o.quality == "medium") = false := beq_eq_false_iff_ne.mpr h2
  have b3 : (o.quality == "low") = false := beq_eq_false_iff_ne.mpr h3
  rw [VideoConverter.buildVideoQualityArgs]
  simp [hadv, dictGet, VIDEO_QUALITY_GPU, VIDEO_QUALITY_CRF, List.lookup,
    b1, b2, b3]

/-- Witness for C10 at a concrete input: quality tier `"ultra"`. -/
theorem C10_unknown_tier_witness :
    ((⟨"clip.mov", "/out", "mp4", "original", "ultra", false, false, "auto",
        "original", "libx264", "aac", "original", "original", "original", "", 0, true⟩
      : VideoOpts).advanced = false)
    ∧ ¬(("ultra" : String) = "high" ∨ ("ultra" : String) = "medium"
        ∨ ("ultra" : String) = "low")
    ∧ ∀ enc, VideoConverter.buildVideoQualityArgs
        ⟨"clip.mov", "/out", "mp4", "original", "ultra", false, false, "auto",
         "original", "libx264", "aac", "original", "original", "original", "", 0, true⟩
        enc
      = if strContains enc "nvenc" then ["-b:v", "4000k"]
        else ["-crf", "23", "-preset", "medium"] :=
  ⟨rfl, by decide, C10_unknown_tier _ rfl (by decide)⟩

/-! ### The shared ffmpeg runner (`_BaseConverter._run_ffmpeg`)

The stderr-reading loop is embedded as a function from the stream contents,
a cancellation schedule and the eventual exit code to the list of callback
events it fires.  The cancellation flag is modelled by the first check index
at which `self._stop.is_set()` reads true (`none` when `stop()` is never
called during the run); check index `i` is reached after `i` characters
have been consumed, and one extra check happens after `proc.wait()`. -/

/-- One callback invocation: either `progress_cb` or `done_cb`. -/
inductive Ev where
  | prog (pct : Nat) (status : String)
  | done (ok : Bool) (msg : String)
deriving DecidableEq

/-- Result of `subprocess.Popen` in `_run_ffmpeg`. -/
inductive SpawnRes where
  | ok
  | notFound
  | err (msg : String)
deriving DecidableEq

/-- Run configuration: probed total duration, process exit code, and the
first check index at which the stop flag reads set. -/
structure RunCfg where
  total : Option Nat
  exitCode : Int
  stopAt : Option Nat
deriving DecidableEq

/-- Whether the stop flag reads set at check index `i`. -/
def stopSet (stopAt : Option Nat) (i : Nat) : Bool :=
  match stopAt with
  | none => false
  | some t => decide (t ≤ i)

/-- Numeric value of an ASCII digit. -/
def digitVal (c : Char) : Nat := c.toNat - 48

/-- Match of the regex `time=(\d{2}):(\d{2}):(\d{2})` anchored at the head
of the list, returning the elapsed seconds `h*3600 + m*60 + s`. -/
def matchTimeAt : List Char → Option Nat
  | 't' :: 'i' :: 'm' :: 'e' :: '=' :: h1 :: h2 :: ':' :: m1 :: m2 :: ':' :: s1 :: s2 :: _ =>
    if h1.isDigit ∧ h2.isDigit ∧ m1.isDigit ∧ m2.isDigit ∧ s1.isDigit ∧ s2.isDigit then
      some ((10 * digitVal h1 + digitVal h2) * 3600
        + (10 * digitVal m1 + digitVal m2) * 60
        + (10 * digitVal s1 + digitVal s2))
    else none
  | _ => none

/-- `TIME_RE.search`: leftmost match of the progress marker, as elapsed
seconds. -/
def searchTime : List Char → Option Nat
  | [] => none
  | c :: rest =>
    match matchTimeAt (c :: rest) with
    | some v => some v
    | none => searchTime rest

/-- Round half to even of `a / b` to an integer (the rounding used at each
IEEE-754 operation). -/
def rne (a b : Nat) : Nat :=
  if 2 * (a % b) < b then a / b
  else if b < 2 * (a % b) then a / b + 1
  else if (a / b) % 2 = 0 then a / b else a / b + 1

/-- Fuel-driven helper for `log2f` (structural, so it evaluates in the
kernel, unlike `Nat.log2`). -/
def log2fAux : Nat → Nat → Nat
  | 0, _ => 0
  | fuel + 1, n => if n ≤ 1 then 0 else log2fAux fuel (n / 2) + 1

/-- Floor of the base-two logarithm of `n` (0 at 0). -/
def log2f (n : Nat) : Nat := log2fAux n n

/-- Floor of the base-two logarithm of `a / b` for positive `a`, `b`. -/
def ilog2R (a b : Nat) : Int :=
  if 0 ≤ ((log2f a : Int) - (log2f b : Int)) then
    (if b * 2 ^ ((log2f a : Int) - (log2f b : Int)).toNat ≤ a
      then (log2f a : Int) - (log2f b : Int)
      else (log2f a : Int) - (log2f b : Int) - 1)
  else
    (if b ≤ a * 2 ^ (-((log2f a : Int) - (log2f b : Int))).toNat
      then (log2f a : Int) - (log2f b : Int)
      else (log2f a : Int) - (log2f b : Int) - 1)

/-- The 53-bit significand of `a / b` rounded to nearest (ties to even) at
binade `z`: the value represented is `mant a b z * 2 ^ (z - 52)`. -/
def mant (a b : Nat) (z : Int) : Nat :=
  if 0 ≤ z - 52 then rne a (b * 2 ^ (z - 52).toNat)
  else rne (a * 2 ^ (52 - z).toNat) b

/-- Binary64 value of `cur / total` (CPython's correctly rounded int/int
true division) as a significand/exponent pair. -/
def b64Div (cur total : Nat) : Nat × Int :=
  (mant cur total (ilog2R cur total), ilog2R cur total - 52)

/-- Binary64 multiplication of `m * 2 ^ E` by the exact constant 100:
the exact product re-rounded to 53 bits. -/
def b64Mul100 (m : Nat) (E : Int) : Nat × Int :=
  (rne (m * 100) (2 ^ (log2f (m * 100) - 52)),
    E + (log2f (m * 100) - 52 : Nat))

/-- Truncation of `m * 2 ^ E` toward zero (Python `int()` on a nonnegative
float). -/
def b64Trunc (m : Nat) (E : Int) : Nat :=
  if 0 ≤ E then m * 2 ^ E.toNat else m / 2 ^ (-E).toNat

/-- Percentage computation `min(int(current / total_duration * 100), 99)`
in IEEE binary64 arithmetic: correctly rounded division, correctly rounded
multiplication by 100, truncation toward zero, then the 99 cap.  The model
performs exact round-to-nearest-even with unbounded exponent, which agrees
with binary64 wherever no overflow or underflow occurs — in particular on
every ratio of two parsed `HH:MM:SS` values (both at most 362439 s). -/
def pctOf (total cur : Nat) : Nat :=
  if cur = 0 then 0
  else
    min (b64Trunc (b64Mul100 (b64Div cur total).1 (b64Div cur total).2).1
                  (b64Mul100 (b64Div cur total).1 (b64Div cur total).2).2) 99

/-- Events fired when a line terminator is observed: scan the buffer for a
progress marker and, when a positive total duration is known, report the
capped percentage with its status string. -/
def progressEvents (total : Option Nat) (buffer : List Char) : List Ev :=
  match total with
  | some T =>
    if 0 < T then
      match searchTime buffer with
      | some cur =>
        [.prog (pctOf T cur) ("Converting... " ++ toString (pctOf T cur) ++ "%")]
      | none => []
    else []
  | none => []

/-- Events fired after the stream ends and `proc.wait()` returns: a final
stop-flag check, then the exit-code dispatch. -/
def finalEvents (cfg : RunCfg) (i : Nat) : List Ev :=
  if stopSet cfg.stopAt i then [.done false "Conversion cancelled."]
  else if cfg.exitCode = 0 then
    [.prog 100 "Done!", .done true "Conversion complete."]
  else [.done false ("FFmpeg exited with code " ++ toString cfg.exitCode ++ ".")]

/-- The read loop of `_run_ffmpeg`: check the stop flag, read one character,
on a line terminator scan the buffer and clear it; on stream end fall
through to `finalEvents`. -/
def loopEvents (cfg : RunCfg) : List Char → Nat → List Char → List Ev
  | [], i, _ =>
    if stopSet cfg.stopAt i then [.done false "Conversion cancelled."]
    else finalEvents cfg (i + 1)
  | c :: rest, i, buffer =>
    if stopSet cfg.stopAt i then [.done false "Conversion cancelled."]
    else if c = '\r' ∨ c = '\n' then
      progressEvents cfg.total (buffer ++ [c]) ++ loopEvents cfg rest (i + 1) []
    else loopEvents cfg rest (i + 1) (buffer ++ [c])

/-- `_run_ffmpeg` itself: spawn-failure short circuits, otherwise the read
loop starting with an empty buffer. -/
def runFFmpeg (spawn : SpawnRes) (stream : List Char) (cfg : RunCfg) : List Ev :=
  match spawn with
  | .notFound =>
    [.done false "ffmpeg not found. Please place ffmpeg.exe next to the application."]
  | .err e => [.done false ("Failed to start ffmpeg: " ++ e)]
  | .ok => loopEvents cfg stream 0 []

/-- A task's `run()`: the initial zero-percent status report, then
`_run_ffmpeg`. -/
def runEvents (initStatus : String) (spawn : SpawnRes) (stream : List Char)
    (cfg : RunCfg) : List Ev :=
  .prog 0 initStatus :: runFFmpeg spawn stream cfg

/-- Arguments of the `progress_cb` invocations, in order. -/
def progs : List Ev → List (Nat × String)
  | [] => []
  | .prog p s :: rest => (p, s) :: progs rest
  | .done _ _ :: rest => progs rest

/-- Arguments of the `done_cb` invocations, in order. -/
def dones : List Ev → List (Bool × String)
  | [] => []
  | .prog _ _ :: rest => dones rest
  | .done b m :: rest => (b, m) :: dones rest

/-- Reported percentages, in order. -/
def progPcts (evs : List Ev) : List Nat := (progs evs).map Prod.fst

/-- The elapsed-seconds markers parsed from each terminated line of the
stream (first match per line), given the starting buffer. -/
def lineMarkers : List Char → List Char → List Nat
  | [], _ => []
  | c :: rest, buf =>
    if c = '\r' ∨ c = '\n' then
      (match searchTime (buf ++ [c]) with
       | some v => [v]
       | none => []) ++ lineMarkers rest []
    else lineMarkers rest (buf ++ [c])

/-- The `(percent, status)` pairs reported for each terminated line of the
stream. -/
def lineProgs (total : Option Nat) : List Char → List Char → List (Nat × String)
  | [], _ => []
  | c :: rest, buf =>
    if c = '\r' ∨ c = '\n' then
      progs (progressEvents total (buf ++ [c])) ++ lineProgs total rest []
    else lineProgs total rest (buf ++ [c])

/-! ### Runner-loop lemmas -/

lemma progs_append (a b : List Ev) : progs (a ++ b) = progs a ++ progs b := by
  induction a with
  | nil => rfl
  | cons e rest ih => cases e <;> simp [progs, ih]

lemma dones_append (a b : List Ev) : dones (a ++ b) = dones a ++ dones b := by
  induction a with
  | nil => rfl
  | cons e rest ih => cases e <;> simp [dones, ih]

lemma mem_progs {evs : List Ev} {p : Nat} {s : String} :
    (p, s) ∈ progs evs ↔ Ev.prog p s ∈ evs := by
  induction evs with
  | nil => simp [progs]
  | cons e rest ih => cases e <;> simp [progs, ih]

lemma pctOf_le (T cur : Nat) : pctOf T cur ≤ 99 := by
  rw [pctOf]
  split_ifs
  · omega
  · exact min_le_right _ _

/-! Monotonicity of the binary64 percentage pipeline: each rounding stage
is monotone in the value it rounds, so the composite is monotone in the
elapsed time. -/

lemma le_rne (a b : Nat) : a / b ≤ rne a b := by
  rw [rne]; split_ifs <;> omega

lemma rne_le (a b : Nat) : rne a b ≤ a / b + 1 := by
  rw [rne]; split_ifs <;> omega

lemma div_cross_mono {a b c d : Nat} (hd : 0 < d) (h : a * d ≤ c * b) :
    a / b ≤ c / d := by
  rcases Nat.eq_zero_or_pos b with hb | hb
  · subst hb; simp
  · rw [Nat.le_div_iff_mul_le hd]
    have h4 : a / b * d * b ≤ c * b := by
      calc a / b * d * b = a / b * b * d := by ring
        _ ≤ a * d := Nat.mul_le_mul_right d (Nat.div_mul_le_self a b)
        _ ≤ c * b := h
    exact Nat.le_of_mul_le_mul_right h4 hb

lemma rne_mono {a b c d : Nat} (hb : 0 < b) (hd : 0 < d) (h : a * d ≤ c * b) :
    rne a b ≤ rne c d := by
  have hq : a / b ≤ c / d := div_cross_mono hd h
  rcases Nat.lt_or_ge (a / b) (c / d) with hlt | hge
  · have h1 := rne_le a b
    have h2 := le_rne c d
    omega
  · have heq : a / b = c / d := le_antisymm hq hge
    have e1 : b * (a / b) + a % b = a := Nat.div_add_mod a b
    have e2 : d * (c / d) + c % d = c := Nat.div_add_mod c d
    have hsum : b * (a / b) * d + (a % b) * d ≤ d * (c / d) * b + (c % d) * b := by
      calc b * (a / b) * d + (a % b) * d = (b * (a / b) + a % b) * d := by ring
        _ = a * d := by rw [e1]
        _ ≤ c * b := h
        _ = (d * (c / d) + c % d) * b := by rw [e2]
        _ = d * (c / d) * b + (c % d) * b := by ring
    have heqt : b * (a / b) * d = d * (c / d) * b := by rw [heq]; ring
    have hrs : (a % b) * d ≤ (c % d) * b := by linarith
    have hL := le_rne a b
    have hL2 := rne_le a b
    have hR := le_rne c d
    have hR2 := rne_le c d
    by_cases hup : rne a b ≤ a / b
    · omega
    · have hab : rne a b = a / b + 1 := by omega
      have hcond : b ≤ 2 * (a % b) := by
        by_contra hcon
        push_neg at hcon
        rw [rne, if_pos hcon] at hab
        omega
      have hd2 : d ≤ 2 * (c % d) := by
        have h1 : b * d ≤ 2 * (a % b) * d := Nat.mul_le_mul_right d hcond
        have h2 : 2 * (a % b) * d ≤ 2 * (c % d) * b := by
          calc 2 * (a % b) * d = 2 * ((a % b) * d) := by ring
            _ ≤ 2 * ((c % d) * b) := Nat.mul_le_mul_left 2 hrs
            _ = 2 * (c % d) * b := by ring
        have h3 : d * b ≤ 2 * (c % d) * b := by
          calc d * b = b * d := by ring
            _ ≤ 2 * (c % d) * b := le_trans h1 h2
        exact Nat.le_of_mul_le_mul_right h3 hb
      rcases Nat.lt_or_ge d (2 * (c % d)) with hstr | htie
      · have : rne c d = c / d + 1 := by
          rw [rne, if_neg (by omega), if_pos hstr]
        omega
      · by_cases hbs : b < 2 * (a % b)
        · exfalso
          have h1 : b * d < 2 * (a % b) * d := (mul_lt_mul_right hd).mpr hbs
          have h2 : 2 * (a % b) * d ≤ 2 * (c % d) * b := by
            calc 2 * (a % b) * d = 2 * ((a % b) * d) := by ring
              _ ≤ 2 * ((c % d) * b) := Nat.mul_le_mul_left 2 hrs
              _ = 2 * (c % d) * b := by ring
          have h3 : d * b < 2 * (c % d) * b := by
            calc d * b = b * d := by ring
              _ < 2 * (a % b) * d := h1
              _ ≤ 2 * (c % d) * b := h2
          have h4 : d < 2 * (c % d) := (mul_lt_mul_right hb).mp h3
          omega
        · have hodd : ¬ (a / b) % 2 = 0 := by
            intro hev
            rw [rne, if_neg (by omega), if_neg (by omega), if_pos hev] at hab
            omega
          have : rne c d = c / d + 1 := by
            rw [rne, if_neg (by omega), if_neg (by omega),
              if_neg (by rw [← heq]; exact hodd)]
          omega

lemma log2fAux_eq : ∀ (fuel n : Nat), n ≤ fuel → log2fAux fuel n = Nat.log2 n := by
  intro fuel
  induction fuel with
  | zero =>
    intro n hn
    have hn0 : n = 0 := by omega
    subst hn0
    have : Nat.log2 0 = 0 := by
      rw [Nat.log2]
      simp
    rw [this]
    rfl
  | succ fuel ih =>
    intro n hn
    rw [log2fAux]
    by_cases h1 : n ≤ 1
    · rw [if_pos h1]
      conv_rhs => rw [Nat.log2]
      rw [if_neg (by omega)]
    · rw [if_neg h1, ih (n / 2) (by omega)]
      conv_rhs => rw [Nat.log2]
      rw [if_pos (by omega)]

lemma log2f_eq (n : Nat) : log2f n = Nat.log2 n := log2fAux_eq n n le_rfl

lemma log2f_self_le {n : Nat} (h : n ≠ 0) : 2 ^ log2f n ≤ n := by
  rw [log2f_eq]; exact Nat.log2_self_le h

lemma lt_log2f_self (n : Nat) : n < 2 ^ (log2f n + 1) := by
  rw [log2f_eq]; exact Nat.lt_log2_self

lemma log2f_ge {k n : Nat} (h : 2 ^ k ≤ n) : k ≤ log2f n := by
  have h2 : (2:ℕ) ^ k < 2 ^ (log2f n + 1) := lt_of_le_of_lt h (lt_log2f_self n)
  have h3 := (Nat.pow_lt_pow_iff_right (by omega : 1 < 2)).mp h2
  omega

/-- Value `m * 2 ^ E` represented by a significand/exponent pair. -/
def val (m : Nat) (E : Int) : ℚ := (m : ℚ) * (2 : ℚ) ^ E

lemma two_zpow_pos (E : Int) : (0:ℚ) < (2:ℚ) ^ E := by positivity

lemma zpow_collapse (z : ℤ) :
    (2:ℚ) ^ z * (2:ℚ) ^ ((-z).toNat) = (2:ℚ) ^ (z.toNat) := by
  rcases le_or_lt 0 z with hz | hz
  · have h1 : (-z).toNat = 0 := by omega
    have h2 : (z.toNat : ℤ) = z := Int.toNat_of_nonneg hz
    rw [h1, pow_zero, mul_one]
    conv_lhs => rw [← h2]
    rw [zpow_natCast]
  · have h1 : z.toNat = 0 := by omega
    have h2 : ((-z).toNat : ℤ) = -z := Int.toNat_of_nonneg (by omega)
    rw [h1, pow_zero]
    calc (2:ℚ) ^ z * (2:ℚ) ^ ((-z).toNat)
        = (2:ℚ) ^ z * (2:ℚ) ^ (((-z).toNat : ℤ)) := by rw [zpow_natCast]
      _ = (2:ℚ) ^ (z + ((-z).toNat : ℤ)) := (zpow_add₀ two_ne_zero _ _).symm
      _ = (2:ℚ) ^ (0 : ℤ) := by rw [h2]; norm_num
      _ = 1 := zpow_zero 2

lemma qle_cross {z : ℤ} {a b : Nat} :
    (b:ℚ) * (2:ℚ) ^ z ≤ (a:ℚ) ↔ b * 2 ^ z.toNat ≤ a * 2 ^ (-z).toNat := by
  have hp : (0:ℚ) < (2:ℚ) ^ ((-z).toNat : ℕ) := by positivity
  rw [← mul_le_mul_right hp, mul_assoc, zpow_collapse]
  constructor <;> intro h <;> exact_mod_cast h

lemma qlt_cross {z : ℤ} {a b : Nat} :
    (a:ℚ) < (b:ℚ) * (2:ℚ) ^ z ↔ a * 2 ^ (-z).toNat < b * 2 ^ z.toNat := by
  have hp : (0:ℚ) < (2:ℚ) ^ ((-z).toNat : ℕ) := by positivity
  rw [← mul_lt_mul_right hp, mul_assoc, zpow_collapse]
  constructor <;> intro h <;> exact_mod_cast h

lemma ilog2R_le {a b : Nat} (ha : 0 < a) (hb : 0 < b) :
    (b:ℚ) * (2:ℚ) ^ (ilog2R a b) ≤ (a:ℚ) := by
  rw [qle_cross, ilog2R]
  have hla := log2f_self_le (by omega : a ≠ 0)
  have hla2 := lt_log2f_self a
  have hlb := log2f_self_le (by omega : b ≠ 0)
  have hlb2 := lt_log2f_self b
  split_ifs with hd ht ht
  · rw [show (-((log2f a : Int) - (log2f b : Int))).toNat = 0 by omega, pow_zero, mul_one]
    exact ht
  · by_cases hd0 : (log2f a : Int) - (log2f b : Int) = 0
    · rw [show (((log2f a : Int) - (log2f b : Int)) - 1).toNat = 0 by omega,
        show (-(((log2f a : Int) - (log2f b : Int)) - 1)).toNat = 1 by omega,
        pow_zero, mul_one, pow_one]
      have heq : log2f a = log2f b := by omega
      refine le_of_lt ?_
      calc b < 2 ^ (log2f b + 1) := hlb2
        _ = 2 ^ (log2f a) * 2 := by rw [heq, pow_succ]
        _ ≤ a * 2 := Nat.mul_le_mul_right 2 hla
    · rw [show (-(((log2f a : Int) - (log2f b : Int)) - 1)).toNat = 0 by omega,
        pow_zero, mul_one,
        show (((log2f a : Int) - (log2f b : Int)) - 1).toNat
          = log2f a - log2f b - 1 by omega]
      have h1 : b * 2 ^ (log2f a - log2f b - 1)
          < 2 ^ (log2f b + 1) * 2 ^ (log2f a - log2f b - 1) :=
        (mul_lt_mul_right (Nat.two_pow_pos _)).mpr hlb2
      have h2 : (2:ℕ) ^ (log2f b + 1) * 2 ^ (log2f a - log2f b - 1) = 2 ^ (log2f a) := by
        rw [← pow_add]
        congr 1
        omega
      refine le_of_lt ?_
      calc b * 2 ^ (log2f a - log2f b - 1)
          < 2 ^ (log2f a) := by rw [← h2]; exact h1
        _ ≤ a := hla
  · rw [show ((log2f a : Int) - (log2f b : Int)).toNat = 0 by omega, pow_zero, mul_one]
    exact ht
  · rw [show (((log2f a : Int) - (log2f b : Int)) - 1).toNat = 0 by omega, pow_zero, mul_one,
      show (-(((log2f a : Int) - (log2f b : Int)) - 1)).toNat
        = log2f b - log2f a + 1 by omega]
    have h2 : (2:ℕ) ^ (log2f a) * 2 ^ (log2f b - log2f a + 1) = 2 ^ (log2f b + 1) := by
      rw [← pow_add]
      congr 1
      omega
    refine le_of_lt ?_
    calc b < 2 ^ (log2f b + 1) := hlb2
      _ = 2 ^ (log2f a) * 2 ^ (log2f b - log2f a + 1) := h2.symm
      _ ≤ a * 2 ^ (log2f b - log2f a + 1) := Nat.mul_le_mul_right _ hla

lemma ilog2R_lt {a b : Nat} (ha : 0 < a) (hb : 0 < b) :
    (a:ℚ) < (b:ℚ) * (2:ℚ) ^ (ilog2R a b + 1) := by
  rw [qlt_cross, ilog2R]
  have hla := log2f_self_le (by omega : a ≠ 0)
  have hla2 := lt_log2f_self a
  have hlb := log2f_self_le (by omega : b ≠ 0)
  have hlb2 := lt_log2f_self b
  split_ifs with hd ht ht
  · rw [show (-(((log2f a : Int) - (log2f b : Int)) + 1)).toNat = 0 by omega,
      pow_zero, mul_one,
      show (((log2f a : Int) - (log2f b : Int)) + 1).toNat
        = log2f a - log2f b + 1 by omega]
    have h2 : (2:ℕ) ^ (log2f b) * 2 ^ (log2f a - log2f b + 1) = 2 ^ (log2f a + 1) := by
      rw [← pow_add]
      congr 1
      omega
    calc a < 2 ^ (log2f a + 1) := hla2
      _ = 2 ^ (log2f b) * 2 ^ (log2f a - log2f b + 1) := h2.symm
      _ ≤ b * 2 ^ (log2f a - log2f b + 1) := Nat.mul_le_mul_right _ hlb
  · rw [show ((((log2f a : Int) - (log2f b : Int)) - 1) + 1).toNat
        = ((log2f a : Int) - (log2f b : Int)).toNat by omega,
      show (-((((log2f a : Int) - (log2f b : Int)) - 1) + 1)).toNat = 0 by omega,
      pow_zero, mul_one]
    push_neg at ht
    exact ht
  · by_cases hd1 : (log2f a : Int) - (log2f b : Int) = -1
    · rw [show ((((log2f a : Int) - (log2f b : Int))) + 1).toNat = 0 by omega,
        show (-(((log2f a : Int) - (log2f b : Int)) + 1)).toNat = 0 by omega,
        pow_zero, mul_one, mul_one]
      have heq : log2f a + 1 = log2f b := by omega
      calc a < 2 ^ (log2f a + 1) := hla2
        _ = 2 ^ (log2f b) := by rw [heq]
        _ ≤ b := hlb
    · rw [show ((((log2f a : Int) - (log2f b : Int))) + 1).toNat = 0 by omega,
        pow_zero, mul_one,
        show (-(((log2f a : Int) - (log2f b : Int)) + 1)).toNat
          = log2f b - log2f a - 1 by omega]
      have h2 : (2:ℕ) ^ (log2f a + 1) * 2 ^ (log2f b - log2f a - 1) = 2 ^ (log2f b) := by
        rw [← pow_add]
        congr 1
        omega
      calc a * 2 ^ (log2f b - log2f a - 1)
          < 2 ^ (log2f a + 1) * 2 ^ (log2f b - log2f a - 1) :=
            (mul_lt_mul_right (Nat.two_pow_pos _)).mpr hla2
        _ = 2 ^ (log2f b) := h2
        _ ≤ b := hlb
  · rw [show ((((log2f a : Int) - (log2f b : Int)) - 1) + 1).toNat = 0 by omega,
      pow_zero, mul_one,
      show (-((((log2f a : Int) - (log2f b : Int)) - 1) + 1)).toNat
        = (-((log2f a : Int) - (log2f b : Int))).toNat by omega]
    push_neg at ht
    exact ht

lemma mant_ge {a b : Nat} {z : ℤ} (hb : 0 < b)
    (hwin : (b:ℚ) * (2:ℚ) ^ z ≤ (a:ℚ)) : 2 ^ 52 ≤ mant a b z := by
  rw [qle_cross] at hwin
  rw [mant]
  split_ifs with hE
  · refine le_trans ?_ (le_rne _ _)
    rw [Nat.le_div_iff_mul_le (Nat.mul_pos hb (Nat.two_pow_pos _))]
    have h1 : (2:ℕ) ^ 52 * (b * 2 ^ (z - 52).toNat) = b * 2 ^ z.toNat := by
      rw [show z.toNat = 52 + (z - 52).toNat by omega, pow_add]
      ring
    rw [h1]
    have h2 : a * 2 ^ ((-z).toNat) = a := by
      rw [show (-z).toNat = 0 by omega, pow_zero, mul_one]
    rw [h2] at hwin
    exact hwin
  · refine le_trans ?_ (le_rne _ _)
    rw [Nat.le_div_iff_mul_le hb]
    rcases le_or_lt 0 z with hz | hz
    · have h2 : a * 2 ^ ((-z).toNat) = a := by
        rw [show (-z).toNat = 0 by omega, pow_zero, mul_one]
      rw [h2] at hwin
      have h3 : (2:ℕ) ^ 52 * b ≤ (b * 2 ^ z.toNat) * 2 ^ ((52 - z).toNat) := by
        have he : (2:ℕ) ^ 52 = 2 ^ z.toNat * 2 ^ ((52 - z).toNat) := by
          rw [← pow_add]
          congr 1
          omega
        rw [he]
        apply le_of_eq
        ring
      calc (2:ℕ) ^ 52 * b ≤ (b * 2 ^ z.toNat) * 2 ^ ((52 - z).toNat) := h3
        _ ≤ a * 2 ^ ((52 - z).toNat) := Nat.mul_le_mul_right _ hwin
    · have h2 : b * 2 ^ z.toNat = b := by
        rw [show z.toNat = 0 by omega, pow_zero, mul_one]
      rw [h2] at hwin
      have h3 : a * 2 ^ ((52 - z).toNat) = (a * 2 ^ ((-z).toNat)) * 2 ^ 52 := by
        rw [show (52 - z).toNat = (-z).toNat + 52 by omega, pow_add]
        ring
      rw [h3]
      calc (2:ℕ) ^ 52 * b ≤ 2 ^ 52 * (a * 2 ^ ((-z).toNat)) := Nat.mul_le_mul_left _ hwin
        _ = (a * 2 ^ ((-z).toNat)) * 2 ^ 52 := by ring

lemma mant_le {a b : Nat} {z : ℤ} (hb : 0 < b)
    (hwin : (a:ℚ) < (b:ℚ) * (2:ℚ) ^ (z + 1)) : mant a b z ≤ 2 ^ 53 := by
  rw [qlt_cross] at hwin
  rw [mant]
  split_ifs with hE
  · refine le_trans (rne_le _ _) ?_
    have hden : 0 < b * 2 ^ (z - 52).toNat := Nat.mul_pos hb (Nat.two_pow_pos _)
    have hdiv : a / (b * 2 ^ (z - 52).toNat) < 2 ^ 53 := by
      rw [Nat.div_lt_iff_lt_mul hden]
      have h1 : a * 2 ^ ((-(z + 1)).toNat) = a := by
        rw [show (-(z + 1)).toNat = 0 by omega, pow_zero, mul_one]
      rw [h1] at hwin
      have h2 : b * 2 ^ ((z + 1).toNat) = 2 ^ 53 * (b * 2 ^ (z - 52).toNat) := by
        rw [show (z + 1).toNat = 53 + (z - 52).toNat by omega, pow_add]
        ring
      rw [← h2]
      exact hwin
    omega
  · refine le_trans (rne_le _ _) ?_
    have hdiv : (a * 2 ^ (52 - z).toNat) / b < 2 ^ 53 := by
      rw [Nat.div_lt_iff_lt_mul hb]
      rcases le_or_lt 0 (z + 1) with hz | hz
      · have h1 : a * 2 ^ ((-(z + 1)).toNat) = a := by
          rw [show (-(z + 1)).toNat = 0 by omega, pow_zero, mul_one]
        rw [h1] at hwin
        have h3 : (b * 2 ^ ((z + 1).toNat)) * 2 ^ ((52 - z).toNat) = 2 ^ 53 * b := by
          rw [mul_assoc, ← pow_add, show (z + 1).toNat + (52 - z).toNat = 53 by omega]
          ring
        calc a * 2 ^ ((52 - z).toNat)
              < (b * 2 ^ ((z + 1).toNat)) * 2 ^ ((52 - z).toNat) :=
              (mul_lt_mul_right (Nat.two_pow_pos _)).mpr hwin
          _ = 2 ^ 53 * b := h3
      · have h1 : b * 2 ^ ((z + 1).toNat) = b := by
          rw [show (z + 1).toNat = 0 by omega, pow_zero, mul_one]
        rw [h1] at hwin
        have h3 : a * 2 ^ ((52 - z).toNat) = (a * 2 ^ ((-(z + 1)).toNat)) * 2 ^ 53 := by
          rw [show (52 - z).toNat = (-(z + 1)).toNat + 53 by omega, pow_add]
          ring
        rw [h3]
        calc (a * 2 ^ ((-(z + 1)).toNat)) * 2 ^ 53 < b * 2 ^ 53 :=
              (mul_lt_mul_right (Nat.two_pow_pos _)).mpr hwin
          _ = 2 ^ 53 * b := by ring
    omega

lemma mant_mono_same {a b c d : Nat} {z : ℤ} (hb : 0 < b) (hd : 0 < d)
    (h : a * d ≤ c * b) : mant a b z ≤ mant c d z := by
  rw [mant, mant]
  split_ifs with hE
  · refine rne_mono (Nat.mul_pos hb (Nat.two_pow_pos _))
      (Nat.mul_pos hd (Nat.two_pow_pos _)) ?_
    calc a * (d * 2 ^ (z - 52).toNat) = (a * d) * 2 ^ (z - 52).toNat := by ring
      _ ≤ (c * b) * 2 ^ (z - 52).toNat := Nat.mul_le_mul_right _ h
      _ = c * (b * 2 ^ (z - 52).toNat) := by ring
  · refine rne_mono hb hd ?_
    calc (a * 2 ^ (52 - z).toNat) * d = (a * d) * 2 ^ (52 - z).toNat := by ring
      _ ≤ (c * b) * 2 ^ (52 - z).toNat := Nat.mul_le_mul_right _ h
      _ = (c * 2 ^ (52 - z).toNat) * b := by ring

lemma le_val_pow (m c : Nat) (E : Int) (h : 2 ^ c ≤ m) :
    (2:ℚ) ^ ((c:ℤ) + E) ≤ val m E := by
  rw [val, zpow_add₀ two_ne_zero, zpow_natCast]
  have h1 : ((2:ℚ) ^ (c:ℕ)) ≤ (m:ℚ) := by exact_mod_cast h
  exact mul_le_mul_of_nonneg_right h1 (le_of_lt (two_zpow_pos E))

lemma val_le_pow (m c : Nat) (E : Int) (h : m ≤ 2 ^ c) :
    val m E ≤ (2:ℚ) ^ ((c:ℤ) + E) := by
  rw [val, zpow_add₀ two_ne_zero, zpow_natCast]
  have h1 : (m:ℚ) ≤ (2:ℚ) ^ (c:ℕ) := by exact_mod_cast h
  exact mul_le_mul_of_nonneg_right h1 (le_of_lt (two_zpow_pos E))

lemma val_lt_pow (m c : Nat) (E : Int) (h : m < 2 ^ c) :
    val m E < (2:ℚ) ^ ((c:ℤ) + E) := by
  rw [val, zpow_add₀ two_ne_zero, zpow_natCast]
  have h1 : (m:ℚ) < (2:ℚ) ^ (c:ℕ) := by exact_mod_cast h
  exact mul_lt_mul_of_pos_right h1 (two_zpow_pos E)

lemma roundVal_mono {a b c d : Nat} {z w : ℤ}
    (hb : 0 < b) (hd : 0 < d)
    (hw1 : (b:ℚ) * (2:ℚ) ^ z ≤ (a:ℚ)) (hw2 : (a:ℚ) < (b:ℚ) * (2:ℚ) ^ (z + 1))
    (hw3 : (d:ℚ) * (2:ℚ) ^ w ≤ (c:ℚ)) (hw4 : (c:ℚ) < (d:ℚ) * (2:ℚ) ^ (w + 1))
    (hr : a * d ≤ c * b) :
    val (mant a b z) (z - 52) ≤ val (mant c d w) (w - 52) := by
  have hbq : (0:ℚ) < (b:ℚ) := by exact_mod_cast hb
  have hdq : (0:ℚ) < (d:ℚ) := by exact_mod_cast hd
  have hzw : z ≤ w := by
    have h1 : (2:ℚ) ^ z ≤ (a:ℚ) / b := by
      rw [le_div_iff₀ hbq]
      calc (2:ℚ) ^ z * b = (b:ℚ) * 2 ^ z := by ring
        _ ≤ a := hw1
    have h2 : (a:ℚ) / b ≤ (c:ℚ) / d := by
      rw [div_le_div_iff₀ hbq hdq]
      exact_mod_cast hr
    have h3 : (c:ℚ) / d < (2:ℚ) ^ (w + 1) := by
      rw [div_lt_iff₀ hdq]
      calc (c:ℚ) < d * 2 ^ (w + 1) := hw4
        _ = 2 ^ (w + 1) * d := by ring
    have h4 : (2:ℚ) ^ z < (2:ℚ) ^ (w + 1) := lt_of_le_of_lt (le_trans h1 h2) h3
    have h5 := (zpow_lt_zpow_iff_right₀ one_lt_two).mp h4
    omega
  rcases eq_or_lt_of_le hzw with heq | hlt
  · subst heq
    rw [val, val]
    have hm : mant a b z ≤ mant c d z := mant_mono_same hb hd hr
    exact mul_le_mul_of_nonneg_right (by exact_mod_cast hm) (le_of_lt (two_zpow_pos _))
  · have h1 : val (mant a b z) (z - 52) ≤ (2:ℚ) ^ (z + 1) := by
      calc val (mant a b z) (z - 52) ≤ (2:ℚ) ^ ((53:ℕ) + (z - 52)) :=
            val_le_pow _ 53 _ (mant_le hb hw2)
        _ = (2:ℚ) ^ (z + 1) := by
            congr 1
            push_cast
            ring
    have h2 : (2:ℚ) ^ (z + 1) ≤ (2:ℚ) ^ w := zpow_le_zpow_right₀ one_le_two (by omega)
    have h3 : (2:ℚ) ^ w ≤ val (mant c d w) (w - 52) := by
      calc (2:ℚ) ^ w = (2:ℚ) ^ ((52:ℕ) + (w - 52)) := by
            congr 1
            push_cast
            ring
        _ ≤ val (mant c d w) (w - 52) := le_val_pow _ 52 _ (mant_ge hd hw3)
    linarith

lemma b64Div_val_mono {T a b : Nat} (hT : 0 < T) (ha : 0 < a) (h : a ≤ b) :
    val (b64Div a T).1 (b64Div a T).2 ≤ val (b64Div b T).1 (b64Div b T).2 := by
  have hb : 0 < b := lt_of_lt_of_le ha h
  exact roundVal_mono hT hT (ilog2R_le ha hT) (ilog2R_lt ha hT)
    (ilog2R_le hb hT) (ilog2R_lt hb hT) (Nat.mul_le_mul_right T h)

lemma log2f_m100_ge {m : Nat} (hm : 2 ^ 52 ≤ m) : 58 ≤ log2f (m * 100) := by
  have h1 : (2:ℕ) ^ 58 ≤ m * 100 := by
    calc (2:ℕ) ^ 58 = 2 ^ 52 * 64 := by norm_num
      _ ≤ m * 100 := Nat.mul_le_mul hm (by norm_num)
  exact log2f_ge h1

lemma b64Mul100_m_ge {m : Nat} (hm : 2 ^ 52 ≤ m) (E : Int) :
    2 ^ 52 ≤ (b64Mul100 m E).1 := by
  have hmm : m * 100 ≠ 0 := Nat.mul_ne_zero (by omega) (by omega)
  have h1 : 2 ^ (log2f (m * 100)) ≤ m * 100 := log2f_self_le hmm
  have h58 := log2f_m100_ge hm
  show 2 ^ 52 ≤ rne (m * 100) (2 ^ (log2f (m * 100) - 52))
  refine le_trans ?_ (le_rne _ _)
  rw [Nat.le_div_iff_mul_le (Nat.two_pow_pos _)]
  have he : (2:ℕ) ^ 52 * 2 ^ (log2f (m * 100) - 52) = 2 ^ (log2f (m * 100)) := by
    rw [← pow_add]
    congr 1
    omega
  rw [he]
  exact h1

lemma b64Mul100_m_le (m : Nat) (E : Int) : (b64Mul100 m E).1 ≤ 2 ^ 53 := by
  show rne (m * 100) (2 ^ (log2f (m * 100) - 52)) ≤ 2 ^ 53
  refine le_trans (rne_le _ _) ?_
  have hdiv : m * 100 / 2 ^ (log2f (m * 100) - 52) < 2 ^ 53 := by
    rw [Nat.div_lt_iff_lt_mul (Nat.two_pow_pos _)]
    calc m * 100 < 2 ^ (log2f (m * 100) + 1) := lt_log2f_self _
      _ ≤ 2 ^ 53 * 2 ^ (log2f (m * 100) - 52) := by
          rw [← pow_add]
          exact Nat.pow_le_pow_right (by omega) (by omega)
  omega

lemma val_m100 (m : Nat) (E : Int) : val (m * 100) E = val m E * 100 := by
  rw [val, val]
  push_cast
  ring

lemma b64Mul100_val_ge {m : Nat} (hm : 2 ^ 52 ≤ m) (E : Int) :
    (2:ℚ) ^ ((log2f (m * 100) : ℤ) + E) ≤ val (b64Mul100 m E).1 (b64Mul100 m E).2 := by
  have h58 := log2f_m100_ge hm
  calc (2:ℚ) ^ ((log2f (m * 100) : ℤ) + E)
      = (2:ℚ) ^ ((52:ℕ) + (b64Mul100 m E).2) := by
        congr 1
        show (log2f (m * 100) : ℤ) + E
          = ((52:ℕ) : ℤ) + (E + ((log2f (m * 100) - 52 : ℕ) : ℤ))
        omega
    _ ≤ val (b64Mul100 m E).1 (b64Mul100 m E).2 :=
        le_val_pow _ 52 _ (b64Mul100_m_ge hm E)

lemma b64Mul100_val_mono {m n : Nat} {E F : Int}
    (hm : 2 ^ 52 ≤ m) (hn : 2 ^ 52 ≤ n)
    (hv : val m E ≤ val n F) :
    val (b64Mul100 m E).1 (b64Mul100 m E).2
      ≤ val (b64Mul100 n F).1 (b64Mul100 n F).2 := by
  have hmm0 : m * 100 ≠ 0 := Nat.mul_ne_zero (by omega) (by omega)
  have hnn0 : n * 100 ≠ 0 := Nat.mul_ne_zero (by omega) (by omega)
  have h58m := log2f_m100_ge hm
  have h58n := log2f_m100_ge hn
  have hv100 : val (m * 100) E ≤ val (n * 100) F := by
    rw [val_m100, val_m100]
    exact mul_le_mul_of_nonneg_right hv (by norm_num)
  have hz2 : (log2f (m * 100) : ℤ) + E ≤ (log2f (n * 100) : ℤ) + F := by
    have h1 : (2:ℚ) ^ ((log2f (m * 100) : ℤ) + E) ≤ val (m * 100) E :=
      le_val_pow _ _ _ (log2f_self_le hmm0)
    have h2 : val (n * 100) F < (2:ℚ) ^ ((log2f (n * 100) : ℤ) + F + 1) := by
      calc val (n * 100) F < (2:ℚ) ^ (((log2f (n * 100) + 1 : ℕ) : ℤ) + F) :=
            val_lt_pow _ _ _ (lt_log2f_self _)
        _ = (2:ℚ) ^ ((log2f (n * 100) : ℤ) + F + 1) := by
            congr 1
            push_cast
            ring
    have h3 : (2:ℚ) ^ ((log2f (m * 100) : ℤ) + E)
        < (2:ℚ) ^ ((log2f (n * 100) : ℤ) + F + 1) :=
      lt_of_le_of_lt (le_trans h1 hv100) h2
    have h4 := (zpow_lt_zpow_iff_right₀ one_lt_two).mp h3
    omega
  rcases eq_or_lt_of_le hz2 with heq | hlt
  · have hEs : (b64Mul100 m E).2 = (b64Mul100 n F).2 := by
      show E + ((log2f (m * 100) - 52 : ℕ) : ℤ) = F + ((log2f (n * 100) - 52 : ℕ) : ℤ)
      omega
    have hcross : (m * 100) * 2 ^ (log2f (n * 100) - 52)
        ≤ (n * 100) * 2 ^ (log2f (m * 100) - 52) := by
      have step : val (m * 100) E * (2:ℚ) ^ (((log2f (n * 100) - 52 : ℕ) : ℤ) - E)
          ≤ val (n * 100) F * (2:ℚ) ^ (((log2f (n * 100) - 52 : ℕ) : ℤ) - E) :=
        mul_le_mul_of_nonneg_right hv100 (le_of_lt (two_zpow_pos _))
      have hL : val (m * 100) E * (2:ℚ) ^ (((log2f (n * 100) - 52 : ℕ) : ℤ) - E)
          = ((m * 100 : ℕ) : ℚ) * (2:ℚ) ^ (((log2f (n * 100) - 52 : ℕ) : ℤ)) := by
        rw [val, mul_assoc, ← zpow_add₀ two_ne_zero,
          show E + ((((log2f (n * 100) - 52 : ℕ)) : ℤ) - E)
            = (((log2f (n * 100) - 52 : ℕ)) : ℤ) by ring]
      have hR : val (n * 100) F * (2:ℚ) ^ (((log2f (n * 100) - 52 : ℕ) : ℤ) - E)
          = ((n * 100 : ℕ) : ℚ) * (2:ℚ) ^ (((log2f (m * 100) - 52 : ℕ) : ℤ)) := by
        rw [val, mul_assoc, ← zpow_add₀ two_ne_zero,
          show F + ((((log2f (n * 100) - 52 : ℕ)) : ℤ) - E)
            = (((log2f (m * 100) - 52 : ℕ)) : ℤ) by omega]
      rw [hL, hR] at step
      rw [zpow_natCast, zpow_natCast] at step
      exact_mod_cast step
    have hm2 : (b64Mul100 m E).1 ≤ (b64Mul100 n F).1 := by
      show rne (m * 100) (2 ^ (log2f (m * 100) - 52))
        ≤ rne (n * 100) (2 ^ (log2f (n * 100) - 52))
      exact rne_mono (Nat.two_pow_pos _) (Nat.two_pow_pos _) hcross
    rw [val, val, hEs]
    exact mul_le_mul_of_nonneg_right (by exact_mod_cast hm2) (le_of_lt (two_zpow_pos _))
  · have h1 : val (b64Mul100 m E).1 (b64Mul100 m E).2
        ≤ (2:ℚ) ^ ((log2f (m * 100) : ℤ) + E + 1) := by
      calc val (b64Mul100 m E).1 (b64Mul100 m E).2
            ≤ (2:ℚ) ^ ((53:ℕ) + (b64Mul100 m E).2) := val_le_pow _ 53 _ (b64Mul100_m_le m E)
        _ = (2:ℚ) ^ ((log2f (m * 100) : ℤ) + E + 1) := by
            congr 1
            show ((53:ℕ) : ℤ) + (E + ((log2f (m * 100) - 52 : ℕ) : ℤ)) = _
            omega
    have h2 : (2:ℚ) ^ ((log2f (m * 100) : ℤ) + E + 1)
        ≤ (2:ℚ) ^ ((log2f (n * 100) : ℤ) + F) :=
      zpow_le_zpow_right₀ one_le_two (by omega)
    have h3 := b64Mul100_val_ge hn F
    linarith

lemma b64Trunc_eq_floor (m : Nat) (E : Int) : (b64Trunc m E : ℤ) = ⌊val m E⌋ := by
  rw [b64Trunc, val]
  split_ifs with hE
  · rw [show (2:ℚ) ^ E = (2:ℚ) ^ (E.toNat : ℕ) by
      rw [← zpow_natCast (2:ℚ) E.toNat]
      congr 1
      omega]
    rw [show (m:ℚ) * (2:ℚ) ^ (E.toNat : ℕ) = (((m * 2 ^ E.toNat : ℕ)) : ℚ) by
      push_cast
      ring]
    rw [Int.floor_natCast]
  · push_neg at hE
    rw [show (2:ℚ) ^ E = (((2 ^ (-E).toNat : ℕ)) : ℚ)⁻¹ by
      rw [show (((2 ^ (-E).toNat : ℕ)) : ℚ) = (2:ℚ) ^ (((-E).toNat : ℕ)) by push_cast; ring,
        ← zpow_natCast (2:ℚ) (-E).toNat, ← zpow_neg]
      congr 1
      omega]
    rw [← div_eq_mul_inv]
    rw [show ((m:ℕ) : ℚ) = (((m:ℕ) : ℤ) : ℚ) by push_cast; ring]
    rw [Rat.floor_intCast_div_natCast]
    rw [Int.natCast_div]

lemma b64Trunc_mono {m n : Nat} {E F : Int} (h : val m E ≤ val n F) :
    b64Trunc m E ≤ b64Trunc n F := by
  have h1 : (b64Trunc m E : ℤ) ≤ (b64Trunc n F : ℤ) := by
    rw [b64Trunc_eq_floor, b64Trunc_eq_floor]
    exact Int.floor_le_floor h
  exact_mod_cast h1

lemma pctOf_mono {T : Nat} (hT : 0 < T) {a b : Nat} (h : a ≤ b) :
    pctOf T a ≤ pctOf T b := by
  rcases Nat.eq_zero_or_pos a with ha | ha
  · subst ha
    rw [pctOf]
    simp
  · have hb : 0 < b := lt_of_lt_of_le ha h
    rw [pctOf, pctOf, if_neg (by omega), if_neg (by omega)]
    refine min_le_min ?_ le_rfl
    refine b64Trunc_mono ?_
    refine b64Mul100_val_mono ?_ ?_ ?_
    · exact mant_ge hT (ilog2R_le ha hT)
    · exact mant_ge hT (ilog2R_le hb hT)
    · exact b64Div_val_mono hT ha h

lemma progs_progressEvents_le (total : Option Nat) (buf : List Char) :
    ∀ pr ∈ progs (progressEvents total buf), pr.1 ≤ 99 := by
  intro pr hpr
  rcases total with _ | T
  · simp [progressEvents, progs] at hpr
  · by_cases hT : 0 < T
    · rcases hsv : searchTime buf with _ | v
      · simp [progressEvents, hT, hsv, progs] at hpr
      · simp [progressEvents, hT, hsv, progs] at hpr
        rw [hpr]
        exact pctOf_le T v
    · simp [progressEvents, hT, progs] at hpr

lemma dones_progressEvents (total : Option Nat) (buf : List Char) :
    dones (progressEvents total buf) = [] := by
  rcases total with _ | T
  · rfl
  · rw [progressEvents]
    split
    · rcases searchTime buf with _ | v <;> rfl
    · rfl

lemma stopSet_mono {sa : Option Nat} {i j : Nat} (hij : i ≤ j)
    (h : stopSet sa i = true) : stopSet sa j = true := by
  rcases sa with _ | t
  · simp [stopSet] at h
  · simp [stopSet] at h ⊢
    exact h.trans hij

lemma stopSet_anti {sa : Option Nat} {i j : Nat} (hij : i ≤ j)
    (h : stopSet sa j = false) : stopSet sa i = false := by
  cases hb : stopSet sa i
  · rfl
  · have := stopSet_mono hij hb
    simp [h] at this

lemma loop_progs_decomp (cfg : RunCfg) (stream : List Char) :
    ∀ (i : Nat) (buf : List Char),
      stopSet cfg.stopAt (i + stream.length + 1) = false →
      progs (loopEvents cfg stream i buf)
        = lineProgs cfg.total stream buf
          ++ (if cfg.exitCode = 0 then [(100, "Done!")] else []) := by
  induction stream with
  | nil =>
    intro i buf hstop
    simp only [List.length_nil, Nat.add_zero] at hstop
    have h0 : stopSet cfg.stopAt i = false := stopSet_anti (Nat.le_succ i) hstop
    have h1 : stopSet cfg.stopAt (i + 1) = false := hstop
    simp only [loopEvents, h0, Bool.false_eq_true, if_false, finalEvents, h1]
    by_cases he : cfg.exitCode = 0 <;> simp [he, progs, lineProgs]
  | cons c rest ih =>
    intro i buf hstop
    have hstop' : stopSet cfg.stopAt ((i + 1) + rest.length + 1) = false := by
      have heq : (i + 1) + rest.length + 1 = i + (c :: rest).length + 1 := by
        simp [List.length_cons]; omega
      rw [heq]; exact hstop
    have h0 : stopSet cfg.stopAt i = false := by
      refine stopSet_anti ?_ hstop
      simp [List.length_cons]; omega
    simp only [loopEvents, h0, Bool.false_eq_true, if_false]
    by_cases hc : c = '\r' ∨ c = '\n'
    · rw [if_pos hc, progs_append, ih (i + 1) [] hstop']
      simp only [lineProgs, if_pos hc, List.append_assoc]
    · rw [if_neg hc, ih (i + 1) (buf ++ [c]) hstop']
      simp only [lineProgs, if_neg hc]

lemma loop_progs_stopped (cfg : RunCfg) (stream : List Char) :
    ∀ (i : Nat) (buf : List Char),
      stopSet cfg.stopAt (i + stream.length + 1) = true →
      ∀ pr ∈ progs (loopEvents cfg stream i buf), pr.1 ≤ 99 := by
  induction stream with
  | nil =>
    intro i buf hstop pr hpr
    simp only [List.length_nil, Nat.add_zero] at hstop
    rcases h0 : stopSet cfg.stopAt i with _ | _ <;>
      simp only [loopEvents, h0, Bool.false_eq_true, if_false, if_true] at hpr
    · simp only [finalEvents, hstop, if_true] at hpr
      simp [progs] at hpr
    · simp [progs] at hpr
  | cons c rest ih =>
    intro i buf hstop pr hpr
    have hstop' : stopSet cfg.stopAt ((i + 1) + rest.length + 1) = true := by
      have heq : (i + 1) + rest.length + 1 = i + (c :: rest).length + 1 := by
        simp [List.length_cons]; omega
      rw [heq]; exact hstop
    rcases h0 : stopSet cfg.stopAt i with _ | _ <;>
      simp only [loopEvents, h0, Bool.false_eq_true, if_false, if_true] at hpr
    · by_cases hc : c = '\r' ∨ c = '\n'
      · rw [if_pos hc, progs_append, List.mem_append] at hpr
        rcases hpr with hpr | hpr
        · exact progs_progressEvents_le cfg.total (buf ++ [c]) pr hpr
        · exact ih (i + 1) [] hstop' pr hpr
      · rw [if_neg hc] at hpr
        exact ih (i + 1) (buf ++ [c]) hstop' pr hpr
    · simp [progs] at hpr

lemma loop_dones_cancel (cfg : RunCfg) (stream : List Char) :
    ∀ (i : Nat) (buf : List Char),
      stopSet cfg.stopAt (i + stream.length + 1) = true →
      dones (loopEvents cfg stream i buf) = [(false, "Conversion cancelled.")]
      ∧ (loopEvents cfg stream i buf).getLast?
          = some (.done false "Conversion cancelled.") := by
  induction stream with
  | nil =>
    intro i buf hstop
    simp only [List.length_nil, Nat.add_zero] at hstop
    rcases h0 : stopSet cfg.stopAt i with _ | _ <;>
      simp only [loopEvents, h0, Bool.false_eq_true, if_false, if_true]
    · simp only [finalEvents, hstop, if_true]
      exact ⟨rfl, rfl⟩
    · exact ⟨rfl, rfl⟩
  | cons c rest ih =>
    intro i buf hstop
    have hstop' : stopSet cfg.stopAt ((i + 1) + rest.length + 1) = true := by
      have heq : (i + 1) + rest.length + 1 = i + (c :: rest).length + 1 := by
        simp [List.length_cons]; omega
      rw [heq]; exact hstop
    rcases h0 : stopSet cfg.stopAt i with _ | _ <;>
      simp only [loopEvents, h0, Bool.false_eq_true, if_false, if_true]
    · obtain ⟨ihd, ihl⟩ := ih (i + 1) [] hstop'
      by_cases hc : c = '\r' ∨ c = '\n'
      · rw [if_pos hc]
        have hne : loopEvents cfg rest (i + 1) [] ≠ [] := by
          intro hnil
          rw [hnil] at ihd
          simp [dones] at ihd
        refine ⟨?_, ?_⟩
        · rw [dones_append, dones_progressEvents, List.nil_append, ihd]
        · rw [List.getLast?_append_of_ne_nil _ hne, ihl]
      · rw [if_neg hc]
        exact ih (i + 1) (buf ++ [c]) hstop'
    · exact ⟨rfl, rfl⟩

lemma loop_dones_length (cfg : RunCfg) (stream : List Char) :
    ∀ (i : Nat) (buf : List Char),
      (dones (loopEvents cfg stream i buf)).length = 1 := by
  induction stream with
  | nil =>
    intro i buf
    rcases h0 : stopSet cfg.stopAt i with _ | _ <;>
      simp only [loopEvents, h0, Bool.false_eq_true, if_false, if_true]
    · rw [finalEvents]
      split
      · rfl
      · split <;> rfl
    · rfl
  | cons c rest ih =>
    intro i buf
    rcases h0 : stopSet cfg.stopAt i with _ | _ <;>
      simp only [loopEvents, h0, Bool.false_eq_true, if_false, if_true]
    · by_cases hc : c = '\r' ∨ c = '\n'
      · rw [if_pos hc, dones_append, dones_progressEvents, List.nil_append]
        exact ih (i + 1) []
      · rw [if_neg hc]
        exact ih (i + 1) (buf ++ [c])
    · rfl

lemma lineProgs_le (total : Option Nat) (stream : List Char) :
    ∀ (buf : List Char), ∀ pr ∈ lineProgs total stream buf, pr.1 ≤ 99 := by
  induction stream with
  | nil => intro buf pr hpr; simp [lineProgs] at hpr
  | cons c rest ih =>
    intro buf pr hpr
    by_cases hc : c = '\r' ∨ c = '\n'
    · rw [lineProgs, if_pos hc, List.mem_append] at hpr
      rcases hpr with hpr | hpr
      · exact progs_progressEvents_le total (buf ++ [c]) pr hpr
      · exact ih [] pr hpr
    · rw [lineProgs, if_neg hc] at hpr
      exact ih (buf ++ [c]) pr hpr

lemma lineProgs_markers (T : Nat) (hT : 0 < T) (stream : List Char) :
    ∀ (buf : List Char),
      lineProgs (some T) stream buf
        = (lineMarkers stream buf).map
            (fun cur => (pctOf T cur, "Converting... " ++ toString (pctOf T cur) ++ "%")) := by
  induction stream with
  | nil => intro buf; rfl
  | cons c rest ih =>
    intro buf
    by_cases hc : c = '\r' ∨ c = '\n'
    · rw [lineProgs, if_pos hc, lineMarkers, if_pos hc, List.map_append, ih []]
      congr 1
      rcases hsv : searchTime (buf ++ [c]) with _ | v <;>
        simp [progressEvents, hT, hsv, progs]
    · rw [lineProgs, if_neg hc, lineMarkers, if_neg hc, ih (buf ++ [c])]

/-- Claim C1 (amended): with a known positive total duration (bounded by
362439 s, the largest value parseable from two-digit `HH:MM:SS` fields,
within which the unbounded-exponent rounding model coincides with IEEE
binary64), every progress report of the read loop is either the final
success report or carries the binary64 percentage `pctOf` of some parsed
line marker together with the status `"Converting... N%"`; and for a
non-decreasing sequence of parsed elapsed-time markers the reported
percentages are non-decreasing, every pre-success value being at most 99. -/
theorem C1_progress_reports (T : Nat) (e : Int) (stream : List Char)
    (hT : 0 < T) (_hTmax : T ≤ 362439)
    (hmono : List.Chain' (· ≤ ·) (lineMarkers stream [])) :
    (∀ p s, Ev.prog p s ∈ runFFmpeg SpawnRes.ok stream ⟨some T, e, none⟩ →
        (p = 100 ∧ s = "Done!" ∧ e = 0)
        ∨ ∃ cur ∈ lineMarkers stream [],
            p = pctOf T cur
            ∧ s = "Converting... " ++ toString p ++ "%")
    ∧ List.Chain' (· ≤ ·)
        (progPcts (runFFmpeg SpawnRes.ok stream ⟨some T, e, none⟩))
    ∧ (∀ p ∈ (lineMarkers stream []).map (fun cur => pctOf T cur),
        p ≤ 99) := by
  have hstop : stopSet (RunCfg.stopAt ⟨some T, e, none⟩) (0 + stream.length + 1) = false := rfl
  have hdec : progs (loopEvents ⟨some T, e, none⟩ stream 0 [])
      = lineProgs (some T) stream []
        ++ (if e = 0 then [(100, "Done!")] else []) :=
    loop_progs_decomp ⟨some T, e, none⟩ stream 0 [] hstop
  have hmk := lineProgs_markers T hT stream []
  have hrun : runFFmpeg SpawnRes.ok stream ⟨some T, e, none⟩
      = loopEvents ⟨some T, e, none⟩ stream 0 [] := rfl
  have hM : List.map Prod.fst (lineProgs (some T) stream [])
      = (lineMarkers stream []).map (fun cur => pctOf T cur) := by
    rw [hmk, List.map_map]
    rfl
  refine ⟨?_, ?_, ?_⟩
  · intro p s hmem
    have hp : (p, s) ∈ progs (loopEvents ⟨some T, e, none⟩ stream 0 []) :=
      mem_progs.mpr (hrun ▸ hmem)
    rw [hdec, hmk, List.mem_append] at hp
    rcases hp with hp | hp
    · right
      obtain ⟨cur, hcur, hpair⟩ := List.mem_map.mp hp
      simp only [Prod.mk.injEq] at hpair
      refine ⟨cur, hcur, hpair.1.symm, ?_⟩
      rw [← hpair.2, ← hpair.1]
    · left
      by_cases he : e = 0
      · rw [if_pos he, List.mem_singleton, Prod.mk.injEq] at hp
        exact ⟨hp.1, hp.2, he⟩
      · rw [if_neg he] at hp
        exact absurd hp (List.not_mem_nil _)
  · have hpcts : progPcts (runFFmpeg SpawnRes.ok stream ⟨some T, e, none⟩)
        = (lineMarkers stream []).map (fun cur => pctOf T cur)
          ++ (if e = 0 then [100] else []) := by
      rw [progPcts, hrun, hdec, List.map_append, hM]
      congr 1
      split <;> rfl
    rw [hpcts, List.chain'_append]
    refine ⟨?_, ?_, ?_⟩
    · rw [List.chain'_map]
      exact hmono.imp (fun a b h => pctOf_mono hT h)
    · split <;> simp
    · intro x hx y hy
      have hx99 : x ≤ 99 := by
        obtain ⟨hne, hxe⟩ := List.mem_getLast?_eq_getLast hx
        have hxl := hxe ▸ List.getLast_mem hne
        obtain ⟨cur, _, hpe⟩ := List.mem_map.mp hxl
        rw [← hpe]
        exact pctOf_le T cur
      have hy100 : y = 100 := by
        by_cases he : e = 0
        · rw [if_pos he] at hy
          simp at hy
          omega
        · rw [if_neg he] at hy
          simp at hy
      omega
  · intro p hp
    obtain ⟨cur, _, hpe⟩ := List.mem_map.mp hp
    rw [← hpe]
    exact pctOf_le T cur

/-- Witness for C1 at a concrete input: total 20 s, markers 5 s then 10 s,
successful exit. -/
theorem C1_progress_reports_witness :
    0 < 20
    ∧ 20 ≤ 362439
    ∧ List.Chain' (· ≤ ·) (lineMarkers ("time=00:00:05\ntime=00:00:10\n".data) [])
    ∧ ((∀ p s, Ev.prog p s ∈ runFFmpeg SpawnRes.ok
          ("time=00:00:05\ntime=00:00:10\n".data) ⟨some 20, 0, none⟩ →
          (p = 100 ∧ s = "Done!" ∧ (0 : Int) = 0)
          ∨ ∃ cur ∈ lineMarkers ("time=00:00:05\ntime=00:00:10\n".data) [],
              p = pctOf 20 cur
              ∧ s = "Converting... " ++ toString p ++ "%")
      ∧ List.Chain' (· ≤ ·)
          (progPcts (runFFmpeg SpawnRes.ok
            ("time=00:00:05\ntime=00:00:10\n".data) ⟨some 20, 0, none⟩))
      ∧ (∀ p ∈ (lineMarkers ("time=00:00:05\ntime=00:00:10\n".data) []).map
            (fun cur => pctOf 20 cur), p ≤ 99)) := by
  have hlm : lineMarkers ("time=00:00:05\ntime=00:00:10\n".data) [] = [5, 10] := by
    decide
  have hch : List.Chain' (· ≤ ·) (lineMarkers ("time=00:00:05\ntime=00:00:10\n".data) []) := by
    rw [hlm, List.chain'_cons]
    exact ⟨by omega, List.chain'_singleton 10⟩
  exact ⟨by decide, by decide, hch,
    C1_progress_reports 20 0 _ (by decide) (by decide) hch⟩

/-- Claim C1 counterexample: against a 100 s total the marker 00:00:29 is
reported as 28 % — in binary64 the product `29/100*100` rounds strictly
below 29, so Python's `int(...)` truncates to 28 — refuting the exact
integer formula `min(29*100/100, 99) = 29`; and the loop applies the
percentage formula to each parsed marker without enforcing monotonicity, so
a stream whose markers decrease (10 s then 5 s against a 20 s total) yields
the decreasing report sequence 50, 25 — monotonicity over arbitrary marker
sequences is false as well. -/
theorem C1_counterexample :
    progs (runFFmpeg SpawnRes.ok ("time=00:00:29\n".data) ⟨some 100, 1, none⟩)
      = [(28, "Converting... 28%")]
    ∧ (28 : Nat) ≠ min (29 * 100 / 100) 99
    ∧ ¬ List.Chain' (· ≤ ·)
      (progPcts (runFFmpeg SpawnRes.ok
        ("time=00:00:10\ntime=00:00:05\n".data) ⟨some 20, 1, none⟩)) := by
  refine ⟨by decide, by decide, ?_⟩
  have hpp : progPcts (runFFmpeg SpawnRes.ok
      ("time=00:00:10\ntime=00:00:05\n".data) ⟨some 20, 1, none⟩) = [50, 25] := by
    decide
  intro h
  rw [hpp, List.chain'_cons] at h
  exact absurd h.1 (by omega)

/-- Claim C2 (amended): percent 100 is reported if and only if the task
spawns, exits with code 0 and the cancellation flag is never seen set, and
in that case it is reported exactly once, as the final progress report, with
the pair `(100, "Done!")` (the code's status string, not `"Done"`). -/
theorem C2_hundred_iff_success (initStatus : String) (spawn : SpawnRes)
    (stream : List Char) (cfg : RunCfg) :
    ((∃ s, Ev.prog 100 s ∈ runEvents initStatus spawn stream cfg)
        ↔ spawn = SpawnRes.ok ∧ cfg.exitCode = 0
          ∧ stopSet cfg.stopAt (stream.length + 1) = false)
    ∧ (spawn = SpawnRes.ok → cfg.exitCode = 0 →
        stopSet cfg.stopAt (stream.length + 1) = false →
        ∃ front, progs (runEvents initStatus spawn stream cfg)
            = front ++ [(100, "Done!")]
          ∧ ∀ pr ∈ front, pr.1 < 100) := by
  have hshape : spawn = SpawnRes.ok → cfg.exitCode = 0 →
      stopSet cfg.stopAt (stream.length + 1) = false →
      progs (runEvents initStatus spawn stream cfg)
        = ((0, initStatus) :: lineProgs cfg.total stream []) ++ [(100, "Done!")] := by
    intro hok he hstop
    subst hok
    have hstop' : stopSet cfg.stopAt (0 + stream.length + 1) = false := by
      rwa [Nat.zero_add]
    have hdec := loop_progs_decomp cfg stream 0 [] hstop'
    show (0, initStatus) :: progs (loopEvents cfg stream 0 []) = _
    rw [hdec, if_pos he, List.cons_append]
  constructor
  · constructor
    · rintro ⟨s, hmem⟩
      cases spawn with
      | ok =>
        rcases hs : stopSet cfg.stopAt (stream.length + 1) with _ | _
        · have hstop' : stopSet cfg.stopAt (0 + stream.length + 1) = false := by
            rwa [Nat.zero_add]
          have hdec := loop_progs_decomp cfg stream 0 [] hstop'
          have hp : (100, s) ∈ progs (loopEvents cfg stream 0 []) := by
            rcases List.mem_cons.mp hmem with heq | hmem'
            · simp at heq
            · exact mem_progs.mpr hmem'
          rw [hdec] at hp
          rcases List.mem_append.mp hp with hp | hp
          · have := lineProgs_le cfg.total stream [] _ hp
            simp at this
          · by_cases he : cfg.exitCode = 0
            · exact ⟨rfl, he, rfl⟩
            · rw [if_neg he] at hp
              exact absurd hp (List.not_mem_nil _)
        · have hstop' : stopSet cfg.stopAt (0 + stream.length + 1) = true := by
            rwa [Nat.zero_add]
          rcases List.mem_cons.mp hmem with heq | hmem'
          · simp at heq
          · have := loop_progs_stopped cfg stream 0 [] hstop' _ (mem_progs.mpr hmem')
            simp at this
      | notFound => simp [runEvents, runFFmpeg] at hmem
      | err m => simp [runEvents, runFFmpeg] at hmem
    · rintro ⟨hok, he, hstop⟩
      refine ⟨"Done!", ?_⟩
      have hmem : ((100 : Nat), "Done!") ∈ progs (runEvents initStatus spawn stream cfg) := by
        rw [hshape hok he hstop]
        exact List.mem_append_right _ (List.mem_singleton.mpr rfl)
      exact mem_progs.mp hmem
  · intro hok he hstop
    refine ⟨(0, initStatus) :: lineProgs cfg.total stream [], hshape hok he hstop, ?_⟩
    intro pr hpr
    rcases List.mem_cons.mp hpr with hpr | hpr
    · rw [hpr]
      omega
    · have := lineProgs_le cfg.total stream [] pr hpr
      omega

/-- Witness for C2 at a concrete input: empty stream, exit code 0, no
cancellation. -/
theorem C2_hundred_iff_success_witness :
    (RunCfg.mk (some 10) 0 none).exitCode = 0
    ∧ ∃ front, progs (runEvents "Getting video info..." SpawnRes.ok [] ⟨some 10, 0, none⟩)
        = front ++ [(100, "Done!")]
      ∧ ∀ pr ∈ front, pr.1 < 100 :=
  ⟨rfl, (C2_hundred_iff_success "Getting video info..." SpawnRes.ok []
      ⟨some 10, 0, none⟩).2 rfl rfl rfl⟩

/-- Claim C2 counterexample: on success the final progress status string is
`"Done!"`, not `"Done"` — the claimed pair `(100, "Done")` never occurs. -/
theorem C2_counterexample :
    Ev.prog 100 "Done" ∉ runEvents "Getting video info..." SpawnRes.ok []
        ⟨some 10, 0, none⟩
    ∧ Ev.prog 100 "Done!" ∈ runEvents "Getting video info..." SpawnRes.ok []
        ⟨some 10, 0, none⟩ := by
  constructor
  · decide
  · decide

/-- Claim C3: the done callback fires exactly once on every path, and when
the cancellation flag is observed during the run the single call carries
`(false, "Conversion cancelled.")` and is the last event, so no progress
callback follows it. -/
theorem C3_done_exactly_once (initStatus : String) (spawn : SpawnRes)
    (stream : List Char) (cfg : RunCfg) :
    (dones (runEvents initStatus spawn stream cfg)).length = 1
    ∧ (spawn = SpawnRes.ok → stopSet cfg.stopAt (stream.length + 1) = true →
        dones (runEvents initStatus spawn stream cfg)
            = [(false, "Conversion cancelled.")]
        ∧ (runEvents initStatus spawn stream cfg).getLast?
            = some (.done false "Conversion cancelled.")) := by
  constructor
  · cases spawn with
    | ok =>
      show (dones (loopEvents cfg stream 0 [])).length = 1
      exact loop_dones_length cfg stream 0 []
    | notFound => rfl
    | err m => rfl
  · intro hok hstop
    subst hok
    have hstop' : stopSet cfg.stopAt (0 + stream.length + 1) = true := by
      rwa [Nat.zero_add]
    obtain ⟨hd, hl⟩ := loop_dones_cancel cfg stream 0 [] hstop'
    refine ⟨hd, ?_⟩
    have hne : loopEvents cfg stream 0 [] ≠ [] := by
      intro hnil
      rw [hnil] at hd
      simp [dones] at hd
    show ([Ev.prog 0 initStatus] ++ loopEvents cfg stream 0 []).getLast? = _
    rw [List.getLast?_append_of_ne_nil _ hne]
    exact hl

/-- Witness for C3 at a concrete input: cancellation observed at the first
check. -/
theorem C3_done_exactly_once_witness :
    (dones (runEvents "Converting audio..." SpawnRes.ok ['a'] ⟨none, 0, some 0⟩)).length = 1
    ∧ stopSet (some 0) (List.length ['a'] + 1) = true
    ∧ (dones (runEvents "Converting audio..." SpawnRes.ok ['a'] ⟨none, 0, some 0⟩)
          = [(false, "Conversion cancelled.")]
        ∧ (runEvents "Converting audio..." SpawnRes.ok ['a'] ⟨none, 0, some 0⟩).getLast?
          = some (.done false "Conversion cancelled.")) :=
  ⟨(C3_done_exactly_once "Converting audio..." SpawnRes.ok ['a'] ⟨none, 0, some 0⟩).1,
    by decide,
    (C3_done_exactly_once "Converting audio..." SpawnRes.ok ['a'] ⟨none, 0, some 0⟩).2
      rfl (by decide)⟩

/-! ### Batch runner (`BatchRunner._run`) -/

/-- One task handed to the batch runner: its input path and the callback
events its `run()` produces (arbitrary — the runner never inspects them). -/
structure BTask where
  input_path : String
  events : List Ev

/-- Events observable from a batch run. -/
inductive BEv where
  | itemStart (i total : Nat) (fname : String)
  | taskEv (e : Ev)
  | batchDone (ok fail : Nat)
deriving DecidableEq

/-- The `for`-loop body of `BatchRunner._run`: before each item check the
stop flag; otherwise fire the item-start callback, run the task, and count
it as a success regardless of its outcome.  `fail` is never incremented. -/
def batchLoop (stopB : Option Nat) (total : Nat) :
    List BTask → Nat → Nat → Nat → List BEv
  | [], _, ok, fail => [.batchDone ok fail]
  | t :: rest, i, ok, fail =>
    if stopSet stopB i then [.batchDone ok fail]
    else .itemStart i total (basename t.input_path)
      :: (t.events.map .taskEv ++ batchLoop stopB total rest (i + 1) (ok + 1) fail)

/-- `BatchRunner._run` on a task list; `stopB` is the first loop iteration
at which the batch stop flag reads set. -/
def batchRun (stopB : Option Nat) (tasks : List BTask) : List BEv :=
  batchLoop stopB tasks.length tasks 0 0 0

/-- Arguments of the `item_start_cb` invocations, in order. -/
def itemStarts : List BEv → List (Nat × Nat × String)
  | [] => []
  | .itemStart i t f :: rest => (i, t, f) :: itemStarts rest
  | .taskEv _ :: rest => itemStarts rest
  | .batchDone _ _ :: rest => itemStarts rest

/-- Arguments of the `all_done_cb` invocations, in order. -/
def batchDones : List BEv → List (Nat × Nat)
  | [] => []
  | .batchDone a b :: rest => (a, b) :: batchDones rest
  | .itemStart _ _ _ :: rest => batchDones rest
  | .taskEv _ :: rest => batchDones rest

/-- Number of tasks the loop starts when iterating from index `i` over `n`
remaining tasks. -/
def startedFrom (stopB : Option Nat) (i n : Nat) : Nat :=
  match stopB with
  | none => n
  | some t => min (t - i) n

/-- Number of tasks started in a whole batch of `n`. -/
def startedCount (stopB : Option Nat) (n : Nat) : Nat :=
  startedFrom stopB 0 n

lemma startedFrom_zero (stopB : Option Nat) (i : Nat) : startedFrom stopB i 0 = 0 := by
  cases stopB <;> simp [startedFrom]

lemma startedFrom_step {stopB : Option Nat} {i : Nat}
    (h : stopSet stopB i = false) (n : Nat) :
    startedFrom stopB i (n + 1) = 1 + startedFrom stopB (i + 1) n := by
  rcases stopB with _ | u
  · simp [startedFrom]
    omega
  · simp [stopSet] at h
    simp [startedFrom, Nat.min_def]
    split_ifs <;> omega

lemma itemStarts_append (a b : List BEv) :
    itemStarts (a ++ b) = itemStarts a ++ itemStarts b := by
  induction a with
  | nil => rfl
  | cons e rest ih => cases e <;> simp [itemStarts, ih]

lemma batchDones_append (a b : List BEv) :
    batchDones (a ++ b) = batchDones a ++ batchDones b := by
  induction a with
  | nil => rfl
  | cons e rest ih => cases e <;> simp [batchDones, ih]

lemma itemStarts_taskEvs (evs : List Ev) :
    itemStarts (evs.map BEv.taskEv) = [] := by
  induction evs with
  | nil => rfl
  | cons e rest ih => simp [itemStarts, ih]

lemma batchDones_taskEvs (evs : List Ev) :
    batchDones (evs.map BEv.taskEv) = [] := by
  induction evs with
  | nil => rfl
  | cons e rest ih => simp [batchDones, ih]

lemma batchLoop_shape (stopB : Option Nat) (total : Nat) :
    ∀ (ts : List BTask) (i ok fail : Nat),
      batchLoop stopB total ts i ok fail
        = (((List.enumFrom i ts).take (startedFrom stopB i ts.length)).map
            (fun p => BEv.itemStart p.1 total (basename p.2.input_path)
              :: p.2.events.map BEv.taskEv)).flatten
          ++ [BEv.batchDone (ok + startedFrom stopB i ts.length) fail] := by
  intro ts
  induction ts with
  | nil =>
    intro i ok fail
    simp [batchLoop, startedFrom_zero]
  | cons t rest ih =>
    intro i ok fail
    rcases hs : stopSet stopB i with _ | _
    · have hstep := startedFrom_step hs rest.length
      have hlen : (t :: rest).length = rest.length + 1 := rfl
      rw [batchLoop, if_neg (by simp [hs]), ih (i + 1) (ok + 1) fail, hlen, hstep]
      show _ = ((((i, t) :: List.enumFrom (i + 1) rest).take
          (1 + startedFrom stopB (i + 1) rest.length)).map _).flatten ++ _
      rw [Nat.add_comm 1 (startedFrom stopB (i + 1) rest.length), List.take_succ_cons,
        List.map_cons, List.flatten_cons]
      simp only [List.cons_append, List.append_assoc]
      have : ok + (startedFrom stopB (i + 1) rest.length + 1)
          = ok + 1 + startedFrom stopB (i + 1) rest.length := by omega
      rw [this]
    · rcases stopB with _ | u
      · simp [stopSet] at hs
      · have hu : u ≤ i := by
          simp [stopSet] at hs
          exact hs
        have h0 : startedFrom (some u) i (t :: rest).length = 0 := by
          simp [startedFrom, Nat.sub_eq_zero_of_le hu]
        rw [batchLoop, if_pos (by simp [hs]), h0]
        simp

lemma itemStarts_flatten (total : Nat) (l : List (Nat × BTask)) :
    itemStarts ((l.map (fun p => BEv.itemStart p.1 total (basename p.2.input_path)
        :: p.2.events.map BEv.taskEv)).flatten)
      = l.map (fun p => (p.1, total, basename p.2.input_path)) := by
  induction l with
  | nil => rfl
  | cons p rest ih =>
    rw [List.map_cons, List.flatten_cons, List.cons_append, itemStarts]
    rw [itemStarts_append, itemStarts_taskEvs, List.nil_append, ih, List.map_cons]

lemma batchDones_flatten (total : Nat) (l : List (Nat × BTask)) :
    batchDones ((l.map (fun p => BEv.itemStart p.1 total (basename p.2.input_path)
        :: p.2.events.map BEv.taskEv)).flatten) = [] := by
  induction l with
  | nil => rfl
  | cons p rest ih =>
    rw [List.map_cons, List.flatten_cons, List.cons_append, batchDones]
    rw [batchDones_append, batchDones_taskEvs, List.nil_append, ih]

/-- Claim C4: for a batch whose cancellation flag is never set, the single
batch-done callback reports `(n, 0)` for a batch of `n` tasks — the success
counter counts every started task without inspecting its outcome (the task
traces are arbitrary here) and the failure counter is never incremented. -/
theorem C4_batch_counts (tasks : List BTask) :
    batchDones (batchRun none tasks) = [(tasks.length, 0)] := by
  have hshape := batchLoop_shape none tasks.length tasks 0 0 0
  show batchDones (batchLoop none tasks.length tasks 0 0 0) = _
  rw [hshape, batchDones_append, batchDones_flatten, List.nil_append]
  simp [batchDones, startedFrom]

/-- Claim C8: a batch run is exactly, in order: for each started task its
item-start event `(index, total, filename)` followed by that task's own
events, then one final batch-done event; the number of started tasks is cut
off at the first loop iteration that observes the stop flag, so the
item-start sequence carries the indices `0, 1, 2, ...` of the started
prefix. -/
theorem C8_batch_order (stopB : Option Nat) (tasks : List BTask) :
    batchRun stopB tasks
      = (((List.enumFrom 0 tasks).take (startedCount stopB tasks.length)).map
          (fun p => BEv.itemStart p.1 tasks.length (basename p.2.input_path)
            :: p.2.events.map BEv.taskEv)).flatten
        ++ [BEv.batchDone (startedCount stopB tasks.length) 0]
    ∧ itemStarts (batchRun stopB tasks)
        = ((List.enumFrom 0 tasks).take (startedCount stopB tasks.length)).map
            (fun p => (p.1, tasks.length, basename p.2.input_path))
    ∧ batchDones (batchRun stopB tasks)
        = [(startedCount stopB tasks.length, 0)] := by
  have hshape := batchLoop_shape stopB tasks.length tasks 0 0 0
  rw [Nat.zero_add] at hshape
  unfold startedCount
  refine ⟨hshape, ?_, ?_⟩
  · show itemStarts (batchLoop stopB tasks.length tasks 0 0 0) = _
    rw [hshape, itemStarts_append, itemStarts_flatten]
    simp [itemStarts]
  · show batchDones (batchLoop stopB tasks.length tasks 0 0 0) = _
    rw [hshape, batchDones_append, batchDones_flatten, List.nil_append]
    rfl
